import Mathlib

/-!
# qshell: the incremental upload loop of `QiniuUpload`

A shallow embedding of `src/qshell/qupload.go`, from the point where the
manifest (the cache file) and the state store (leveldb) have been opened:
the scanner loop over the manifest lines, the derivation of the remote key
and of the state-store key, the skip test, the launch/wait throttle, and the
body of the upload goroutine.

Go strings are modelled as lists of code points (well-formed UTF-8 text); the
separators the code searches for (tab, the path separator, the backslash)
are ASCII, so that the byte-wise library functions act on such a list as
written below. The manifest is the list of the lines `bufio.Scanner` yields.

The goroutines run beside the scanner. Each of them touches the store in one
atomic `ldb.Put` at most, so a run is fixed by the order of these writes
among the reads of the scanner: the environment of a run lists, for every
line, the goroutines that finish before the scanner reads it, and the order
in which the others finish when the scanner waits. The theorems on whole
runs hold for every such schedule; the worked runs fix one.
-/

namespace Qshell

/-! ## Strings and the library functions the loop calls -/

/-- Go's `string`, as the list of its code points. -/
abbrev GoString := List Char

/-- The `unicode.IsSpace` test used by `strings.TrimSpace`. -/
def isSpace (c : Char) : Bool :=
  let n := c.toNat
  n == 9 || n == 10 || n == 11 || n == 12 || n == 13 || n == 32
    || n == 0x85 || n == 0xA0 || n == 0x1680 || (0x2000 ≤ n && n ≤ 0x200A)
    || n == 0x2028 || n == 0x2029 || n == 0x202F || n == 0x205F || n == 0x3000

/-- Go `strings.TrimSpace`: leading and trailing white space removed. -/
def TrimSpace (s : GoString) : GoString :=
  ((s.dropWhile isSpace).reverse.dropWhile isSpace).reverse

/-- Go `strings.Split(s, sep)` for a one-character separator: the pieces
between the separators, always at least one piece. -/
def Split : GoString → Char → List GoString
  | [], _ => [[]]
  | c :: cs, sep =>
    if c = sep then [] :: Split cs sep
    else
      match Split cs sep with
      | [] => [[c]]
      | piece :: rest => (c :: piece) :: rest

/-- Go `strings.LastIndex(s, sep)` for a one-character separator: the index
of the last occurrence, or `-1`. -/
def LastIndex : GoString → Char → Int
  | [], _ => -1
  | c :: cs, sep =>
    let j := LastIndex cs sep
    if j ≠ -1 then j + 1 else if c = sep then 0 else -1

/-- Go `strings.Replace(s, old, new, -1)` for one-character `old` and `new`. -/
def Replace : GoString → Char → Char → GoString
  | [], _, _ => []
  | c :: cs, old, new => (if c = old then new else c) :: Replace cs old new

/-- Value of a decimal digit, as `strconv.ParseUint` reads it in base 10. -/
def digitVal (c : Char) : Option Nat :=
  if 48 ≤ c.toNat ∧ c.toNat ≤ 57 then some (c.toNat - 48) else none

/-- The errors of `strconv`: none, `ErrSyntax`, `ErrRange`. -/
inductive NumError
  | nil
  | errSyntax
  | errRange
  deriving DecidableEq, Repr

/-- The digit loop of `strconv.ParseUint(s, 10, bitSize)`, `n` being the
value read so far: a character that is no digit is a syntax error with value
0, a value above `maxVal = 2^bitSize - 1` a range error. -/
def parseUintLoop (maxVal : Nat) : GoString → Nat → Nat × NumError
  | [], n => (n, .nil)
  | c :: cs, n =>
    match digitVal c with
    | none => (0, .errSyntax)
    | some d =>
      if n ≥ (2 ^ 64 - 1) / 10 + 1 then (maxVal, .errRange)
      else
        let n1 := n * 10 + d
        if n1 > 2 ^ 64 - 1 ∨ n1 > maxVal then (maxVal, .errRange)
        else parseUintLoop maxVal cs n1

/-- Go `strconv.ParseUint(s, 10, bitSize)`. -/
def ParseUint (s : GoString) (bitSize : Nat) : Nat × NumError :=
  if s = [] then (0, .errSyntax) else parseUintLoop (2 ^ bitSize - 1) s 0

/-- Go `strconv.ParseInt(s, 10, bitSize)`: optional sign, digits; a syntax
error gives 0, a range error the nearest bound. -/
def ParseInt (s : GoString) (bitSize : Nat) : Int × NumError :=
  match s with
  | [] => (0, .errSyntax)
  | c :: cs =>
    let neg := c = '-'
    let digits := if c = '+' ∨ c = '-' then cs else s
    let (un, err) := ParseUint digits bitSize
    if err = .errSyntax then (0, err)
    else
      let cutoff := 2 ^ (bitSize - 1)
      if ¬ neg ∧ un ≥ cutoff then ((cutoff : Int) - 1, .errRange)
      else if neg ∧ un > cutoff then (-(cutoff : Int), .errRange)
      else (if neg then -(un : Int) else (un : Int), .nil)

/-- Go `strconv.Atoi(s)` on a platform whose `int` has `intSize` bits. -/
def Atoi (intSize : Nat) (s : GoString) : Int × NumError :=
  ParseInt s intSize

/-- The decimal digits of `n`, most significant first, as the formatting
loop of `strconv.FormatInt` writes them; `fuel` bounds the number of digits. -/
def formatBits : Nat → Nat → GoString → GoString
  | 0, _, acc => acc
  | fuel + 1, n, acc =>
    let acc1 := Char.ofNat (48 + n % 10) :: acc
    if n / 10 = 0 then acc1 else formatBits fuel (n / 10) acc1

/-- Go `strconv.Itoa(i)`. -/
def Itoa (i : Int) : GoString :=
  if i < 0 then '-' :: formatBits (i.natAbs + 1) i.natAbs []
  else formatBits (i.natAbs + 1) i.natAbs []

/-! ## The platform, the configuration and the key mapping -/

/-- What the code reads from the platform: `runtime.GOOS == "windows"`
(which also fixes `os.PathSeparator`) and the width of `int`. -/
structure Platform where
  windows : Bool
  int64 : Bool
  deriving DecidableEq, Repr

/-- Go `os.PathSeparator`. -/
def Platform.pathSep (plat : Platform) : Char :=
  if plat.windows then '\\' else '/'

/-- Go `strconv.IntSize`. -/
def Platform.intSize (plat : Platform) : Nat :=
  if plat.int64 then 64 else 32

/-- The source's `UploadConfig`. -/
structure UploadConfig where
  SrcDir : GoString
  AccessKey : GoString
  SecretKey : GoString
  Bucket : GoString
  KeyPrefix : GoString
  IgnoreDir : Bool
  Overwrite : Bool

/-- The source's `PUT_THRESHOLD`: `100 * 1 << 20`, which Go reads as
`(100 * 1) << 20`. -/
def PUT_THRESHOLD : Int := (((100 * 1) <<< 20 : Nat) : Int)

/-- The remote key of a manifest entry (source lines 134 to 146):
`uploadFileKey` once the three `if`s have run. -/
def uploadFileKey (cfg : UploadConfig) (plat : Platform) (cacheFname : GoString) :
    GoString :=
  let key0 := cacheFname
  let key1 :=
    if cfg.IgnoreDir then
      let i := LastIndex key0 plat.pathSep
      if i ≠ -1 then key0.drop (i + 1).toNat else key0
    else key0
  let key2 := if cfg.KeyPrefix ≠ [] then cfg.KeyPrefix ++ key1 else key1
  if plat.windows then Replace key2 '\\' '/' else key2

/-- The local path of a manifest entry (source line 147):
`strings.Join([]string{SrcDir, cacheFname}, pathSep)`. -/
def cacheFilePath (cfg : UploadConfig) (plat : Platform) (cacheFname : GoString) :
    GoString :=
  cfg.SrcDir ++ plat.pathSep :: cacheFname

/-- The state-store key of a manifest entry (source line 157):
`fmt.Sprintf("%s => %s", cacheFilePath, uploadFileKey)`. -/
def ldbKey (cfg : UploadConfig) (plat : Platform) (cacheFname : GoString) : GoString :=
  cacheFilePath cfg plat cacheFname ++ " => ".toList ++ uploadFileKey cfg plat cacheFname

/-! ## The state store, the collaborators and the upload goroutine -/

/-- The leveldb state store: the value stored under each key, if any. -/
abbrev Ldb := GoString → Option GoString

/-- A successful `ldb.Put(key, value)`. -/
def Ldb.put (ldb : Ldb) (key value : GoString) : Ldb :=
  fun k => if k = key then some value else ldb k

/-- The store a first run starts from. -/
def Ldb.empty : Ldb := fun _ => none

/-- What the loop and its goroutines do that is visible from outside: the
errors they log, the progress line, and their calls to the transfer
collaborators and to `ldb.Put`. -/
inductive Event
  | errCacheLine (line : GoString)
  | errStat (cacheFilePath : GoString)
  | uploading (ldbKey : GoString) (currentFileCount : Nat)
  | rioPutFile (scope key localFile : GoString)
  | fioPutFile (scope key localFile : GoString)
  | errPutFile (localFile key : GoString)
  | ldbPut (key value : GoString)
  | errLdbPut (key : GoString)
  deriving DecidableEq, Repr

/-- The environment of a run. `stat` is `os.Stat` on a local path (the size,
or `none` when it fails); `rioPutFile` and `fioPutFile` tell whether the
transfer of `key` from `localFile` under the token scope returns no error;
`ldbPut` tells whether the write of a record succeeds. `finished i` lists, in
the order they finish, the launch numbers of the goroutines that finish
before the scanner reads line `i`; `waitOrder i` the order in which those
still running finish when the scanner waits at line `i` (the goroutines it
does not list finish after them, in launch order). -/
structure World where
  stat : GoString → Option Int
  rioPutFile : GoString → GoString → GoString → Bool
  fioPutFile : GoString → GoString → GoString → Bool
  ldbPut : GoString → GoString → Bool
  finished : Nat → List Nat
  waitOrder : Nat → List Nat

/-- The variables an upload goroutine closes over, and the value of
`upCounter` at its launch. -/
structure Job where
  launch : Nat
  uploadFileKey : GoString
  cacheFilePath : GoString
  ldbKey : GoString
  fsize : Int
  cacheFlmd : Int
  deriving DecidableEq, Repr

/-- The scope of the upload token (source lines 180 to 185). -/
def policyScope (cfg : UploadConfig) (key : GoString) : GoString :=
  if cfg.Overwrite then cfg.Bucket ++ ":".toList ++ key else cfg.Bucket

/-- The body of the upload goroutine (source lines 177 to 211): the store it
leaves and the events it produces. A failed `ldb.Put` leaves the store as it
was. -/
def uploadJob (w : World) (cfg : UploadConfig) (job : Job) (ldb : Ldb) :
    Ldb × List Event :=
  let scope := policyScope cfg job.uploadFileKey
  if job.fsize > PUT_THRESHOLD then
    let call := Event.rioPutFile scope job.uploadFileKey job.cacheFilePath
    if w.rioPutFile scope job.uploadFileKey job.cacheFilePath then
      let value := "Y".toList
      if w.ldbPut job.ldbKey value then
        (ldb.put job.ldbKey value, [call, .ldbPut job.ldbKey value])
      else (ldb, [call, .ldbPut job.ldbKey value, .errLdbPut job.ldbKey])
    else (ldb, [call, .errPutFile job.cacheFilePath job.uploadFileKey])
  else
    let call := Event.fioPutFile scope job.uploadFileKey job.cacheFilePath
    if w.fioPutFile scope job.uploadFileKey job.cacheFilePath then
      let value := Itoa job.cacheFlmd
      if w.ldbPut job.ldbKey value then
        (ldb.put job.ldbKey value, [call, .ldbPut job.ldbKey value])
      else (ldb, [call, .ldbPut job.ldbKey value, .errLdbPut job.ldbKey])
    else (ldb, [call, .errPutFile job.cacheFilePath job.uploadFileKey])

/-! ## The scanner loop -/

/-- The state of a run: the store, the two counters of the loop, the
goroutines added to `upWorkGroup` that are not done, and the events so far. -/
structure RunState where
  ldb : Ldb
  currentFileCount : Nat
  upCounter : Nat
  inFlight : List Job
  trace : List Event

/-- How an iteration, or the run, ends: it goes on to the next line (the run:
it reaches `Upload done!`), it returns from `QiniuUpload`, or it panics. -/
inductive Flow
  | next
  | returned
  | panicked
  deriving DecidableEq, Repr

/-- The goroutine launched as number `n` finishes, if it is still running. -/
def finishJob (w : World) (cfg : UploadConfig) (n : Nat) (s : RunState) : RunState :=
  match s.inFlight.find? (fun job => job.launch = n) with
  | none => s
  | some job =>
    let r := uploadJob w cfg job s.ldb
    { s with
      ldb := r.1
      inFlight := s.inFlight.filter (fun j => j.launch ≠ n)
      trace := s.trace ++ r.2 }

/-- The goroutines of the list finish, in that order. -/
def finishJobs (w : World) (cfg : UploadConfig) (ns : List Nat) (s : RunState) :
    RunState :=
  ns.foldl (fun st n => finishJob w cfg n st) s

/-- The source's `upWorkGroup.Wait()` at line `i`: every goroutine still
running finishes. -/
def waitAll (w : World) (cfg : UploadConfig) (i : Nat) (s : RunState) : RunState :=
  let s1 := finishJobs w cfg (w.waitOrder i) s
  finishJobs w cfg (s1.inFlight.map (fun job => job.launch)) s1

/-- The counters and the progress line of an entry that is not skipped
(source lines 156 and 167 to 172). -/
def RunState.announce (s : RunState) (dbKey : GoString) : RunState :=
  { s with
    currentFileCount := s.currentFileCount + 1
    upCounter := s.upCounter + 1
    trace := s.trace ++ [.uploading dbKey (s.currentFileCount + 1)] }

/-- The throttle (source lines 173 to 175): the scanner waits for every
goroutine in flight when `upCounter` is a multiple of `threadThreshold`. -/
def throttle (w : World) (cfg : UploadConfig) (threadThreshold : Int) (i : Nat)
    (s : RunState) : RunState :=
  if (s.upCounter : Int).tmod threadThreshold = 0 then waitAll w cfg i s else s

/-- The source's `upWorkGroup.Add(1)` and the `go` statement. -/
def RunState.launch (s : RunState) (job : Job) : RunState :=
  { s with inFlight := s.inFlight ++ [job] }

/-- One iteration of the scanner loop (source lines 129 to 214) on line
number `i`: what the scanner itself does. `items[2]` panics on a line of two
fields, and `upCounter % threadThreshold` when `threadThreshold` is 0. -/
def scanLine (w : World) (cfg : UploadConfig) (plat : Platform) (threadCount : Int)
    (i : Nat) (text : GoString) (s : RunState) : Flow × RunState :=
  let line := TrimSpace text
  let items := Split line '\t'
  if items.length > 1 then
    let cacheFname := items.headD []
    match items.get? 2 with
    | none => (.panicked, s)
    | some item2 =>
      let cacheFlmd := (Atoi plat.intSize item2).1
      let key := uploadFileKey cfg plat cacheFname
      let path := cacheFilePath cfg plat cacheFname
      match w.stat path with
      | none => (.returned, { s with trace := s.trace ++ [.errStat path] })
      | some fsize =>
        let dbKey := ldbKey cfg plat cacheFname
        let found := s.ldb dbKey
        let flmd := (Atoi plat.intSize (found.getD [])).1
        if found.isSome ∧ cacheFlmd = flmd then
          (.next, { s with currentFileCount := s.currentFileCount + 1 })
        else
          let s1 := s.announce dbKey
          let threadThreshold := threadCount + 1
          if threadThreshold = 0 then (.panicked, s1)
          else
            let job : Job := ⟨s1.upCounter, key, path, dbKey, fsize, cacheFlmd⟩
            (.next, (throttle w cfg threadThreshold i s1).launch job)
  else
    (.next, { s with trace := s.trace ++ [.errCacheLine line] })

/-- The `for bScanner.Scan()` loop over the lines the scanner yields, from
line number `i` on; before the scanner reads a line, the goroutines of
`w.finished i` finish. -/
def scanLoop (w : World) (cfg : UploadConfig) (plat : Platform) (threadCount : Int) :
    Nat → List GoString → RunState → Flow × RunState
  | _, [], s => (.next, s)
  | i, text :: rest, s =>
    match scanLine w cfg plat threadCount i text (finishJobs w cfg (w.finished i) s) with
    | (.next, s1) => scanLoop w cfg plat threadCount (i + 1) rest s1
    | stop => stop

/-- The state in which the loop starts (source lines 117 to 124). -/
def RunState.init (ldb : Ldb) : RunState :=
  { ldb := ldb, currentFileCount := 0, upCounter := 0, inFlight := [], trace := [] }

/-- The source's `QiniuUpload` from the scanner loop on (source lines 115 to
219): the loop, then the final `upWorkGroup.Wait()`. When the loop returns or
panics there is no wait: the state is the one at that moment, its `inFlight`
the goroutines still running then; what they do afterwards, beside the
deferred `ldb.Close()`, is not part of the state. -/
def QiniuUpload (w : World) (cfg : UploadConfig) (plat : Platform) (threadCount : Int)
    (manifest : List GoString) (ldb : Ldb) : Flow × RunState :=
  match scanLoop w cfg plat threadCount 0 manifest (RunState.init ldb) with
  | (.next, s) => (.next, waitAll w cfg manifest.length s)
  | stop => stop

/-! ## Reading a run -/

/-- The store a run leaves. -/
def storeAfter (w : World) (cfg : UploadConfig) (plat : Platform) (threadCount : Int)
    (manifest : List GoString) (ldb : Ldb) : Ldb :=
  (QiniuUpload w cfg plat threadCount manifest ldb).2.ldb

/-- The number of upload jobs a run dispatches: `upCounter` at its end. -/
def jobsDispatched (w : World) (cfg : UploadConfig) (plat : Platform) (threadCount : Int)
    (manifest : List GoString) (ldb : Ldb) : Nat :=
  (QiniuUpload w cfg plat threadCount manifest ldb).2.upCounter

/-- The events of a run. -/
def eventsOf (w : World) (cfg : UploadConfig) (plat : Platform) (threadCount : Int)
    (manifest : List GoString) (ldb : Ldb) : List Event :=
  (QiniuUpload w cfg plat threadCount manifest ldb).2.trace

/-- Whether an event is a call to a transfer collaborator. -/
def Event.isTransfer : Event → Bool
  | .rioPutFile _ _ _ => true
  | .fioPutFile _ _ _ => true
  | _ => false

/-- Whether an event comes from the scanner itself rather than from an
upload goroutine. -/
def Event.fromScanner : Event → Bool
  | .errCacheLine _ => true
  | .errStat _ => true
  | .uploading _ _ => true
  | _ => false

/-- The relative path a manifest line names: its first field, `items[0]`. -/
def fnameOf (text : GoString) : GoString :=
  (Split (TrimSpace text) '\t').headD []

/-- The modification time the loop reads on a manifest line of three fields
or more: `strconv.Atoi(items[2])`. -/
def flmdOf (plat : Platform) (text : GoString) : Int :=
  (Atoi plat.intSize (((Split (TrimSpace text) '\t').get? 2).getD [])).1

/-- A manifest line of three fields or more. -/
def isEntry (text : GoString) : Prop :=
  3 ≤ (Split (TrimSpace text) '\t').length

instance isEntry.decidable (text : GoString) : Decidable (isEntry text) :=
  Nat.decLe _ _

/-- The invariant of a run in which every transfer and every write to the
store succeeds and no file is above the threshold, `seen` being the entries
read so far among the entries `all` of the manifest: the goroutines in
flight have different launch numbers, each of them uploads an entry read so
far through the simple branch, and every entry read so far either has a
record that reads as its modification time or has a goroutine in flight that
will write one. -/
structure Synced (cfg : UploadConfig) (plat : Platform) (all seen : GoString → Prop)
    (s : RunState) : Prop where
  sub : ∀ t, seen t → all t
  launches : (s.inFlight.map (fun j => j.launch)).Nodup
  bound : ∀ j ∈ s.inFlight, j.launch ≤ s.upCounter
  jobs : ∀ j ∈ s.inFlight, j.fsize ≤ PUT_THRESHOLD ∧
    ∃ t, seen t ∧ j.ldbKey = ldbKey cfg plat (fnameOf t) ∧ j.cacheFlmd = flmdOf plat t
  entries : ∀ t, seen t →
    (∃ v, s.ldb (ldbKey cfg plat (fnameOf t)) = some v ∧
      (Atoi plat.intSize v).1 = flmdOf plat t) ∨
    (∃ j ∈ s.inFlight, j.ldbKey = ldbKey cfg plat (fnameOf t) ∧ j.cacheFlmd = flmdOf plat t)

/-! ## The key mapping as the specification words it -/

/-- The part of `s` after its last `sep`, and all of `s` when it has none. -/
def afterLastSep (sep : Char) (s : GoString) : GoString :=
  (s.reverse.takeWhile (fun c => c ≠ sep)).reverse

/-- On Windows every backslash written as `/`; the text unchanged elsewhere. -/
def toSlash (plat : Platform) (s : GoString) : GoString :=
  if plat.windows then s.map (fun c => if c = '\\' then '/' else c) else s

/-- The body of the remote key as the specification words it: the relative
path, or with `ignore_dir` its part after the last native separator, the
native separators written as `/`. -/
def claimedBody (cfg : UploadConfig) (plat : Platform) (relativePath : GoString) :
    GoString :=
  toSlash plat (if cfg.IgnoreDir then afterLastSep plat.pathSep relativePath else relativePath)

/-- The remote key as the specification words it: the literal prefix, then
the body. -/
def claimedKey (cfg : UploadConfig) (plat : Platform) (relativePath : GoString) :
    GoString :=
  cfg.KeyPrefix ++ claimedBody cfg plat relativePath

/-! ## The inputs of the worked runs -/

/-- An environment whose local files are those of `files` (path and size), in
which every transfer and every write to the store succeeds, and in which a
goroutine runs until the scanner waits for it. -/
def World.quiet (files : List (GoString × Int)) : World where
  stat := fun path => (files.find? (fun f => f.1 = path)).map (fun f => f.2)
  rioPutFile := fun _ _ _ => true
  fioPutFile := fun _ _ _ => true
  ldbPut := fun _ _ => true
  finished := fun _ => []
  waitOrder := fun _ => []

/-- An environment like `World.quiet files` in which every transfer returns
an error. -/
def World.offline (files : List (GoString × Int)) : World :=
  { World.quiet files with
    rioPutFile := fun _ _ _ => false
    fioPutFile := fun _ _ _ => false }

/-- A configuration with source directory `/src`, bucket `bkt`, no key prefix
and no flattening. -/
def plainConfig : UploadConfig :=
  { SrcDir := "/src".toList, AccessKey := "ak".toList, SecretKey := "sk".toList,
    Bucket := "bkt".toList, KeyPrefix := [], IgnoreDir := false, Overwrite := false }

/-- A configuration with key prefix `2024/`. -/
def prefixConfig : UploadConfig := { plainConfig with KeyPrefix := "2024/".toList }

/-- A configuration whose key prefix holds a backslash. -/
def backslashConfig : UploadConfig := { plainConfig with KeyPrefix := "p\\".toList }

/-- A configuration that flattens directories. -/
def flatConfig : UploadConfig := { plainConfig with IgnoreDir := true }

/-- A 64-bit platform that is not Windows. -/
def linux64 : Platform := { windows := false, int64 := true }

/-- A 64-bit Windows. -/
def windows64 : Platform := { windows := true, int64 := true }

/-- A source tree with one file of 104857601 bytes, `big.bin`, and one of 10
bytes, `a.jpg`. -/
def twoFiles : World :=
  World.quiet [("/src/big.bin".toList, 104857601), ("/src/a.jpg".toList, 10)]

/-- A source tree with the three files `a`, `b` and `c`. -/
def threeFiles : World :=
  World.quiet [("/src/a".toList, 1), ("/src/b".toList, 1), ("/src/c".toList, 1)]

/-- A source tree with the two small files `a.jpg` and `b/c.jpg`. -/
def smallFiles : World :=
  World.quiet [("/src/a.jpg".toList, 10240), ("/src/b/c.jpg".toList, 10240)]

/-- The state in which a loop starts when the store holds one record,
`value` under the key of `a.jpg`. -/
def oneRecord (value : GoString) : RunState :=
  RunState.init (Ldb.empty.put (ldbKey plainConfig linux64 "a.jpg".toList) value)

/-! ## Lemmas on the string functions -/

theorem takeWhile_append_stop {α : Type} (p : α → Bool) (l r : List α) (a : α)
    (hl : ∀ x ∈ l, p x = true) (ha : p a = false) :
    (l ++ a :: r).takeWhile p = l := by
  induction l with
  | nil => simp [List.takeWhile, ha]
  | cons x xs ih =>
    have hx : p x = true := hl x (List.mem_cons_self _ _)
    have hxs : ∀ y ∈ xs, p y = true := fun y hy => hl y (List.mem_cons_of_mem _ hy)
    simp [List.takeWhile, hx, ih hxs]

theorem takeWhile_all {α : Type} (p : α → Bool) (l : List α)
    (hl : ∀ x ∈ l, p x = true) : l.takeWhile p = l := by
  induction l with
  | nil => rfl
  | cons x xs ih =>
    have hx : p x = true := hl x (List.mem_cons_self _ _)
    have hxs : ∀ y ∈ xs, p y = true := fun y hy => hl y (List.mem_cons_of_mem _ hy)
    simp [List.takeWhile, hx, ih hxs]

theorem afterLastSep_split (sep : Char) (d b : GoString) (hb : sep ∉ b) :
    afterLastSep sep (d ++ sep :: b) = b := by
  unfold afterLastSep
  have hrev : (d ++ sep :: b).reverse = b.reverse ++ sep :: d.reverse := by simp
  rw [hrev, takeWhile_append_stop]
  · simp
  · intro x hx
    have : x ≠ sep := by
      rintro rfl
      exact hb (List.mem_reverse.mp hx)
    simpa using this
  · simp

theorem afterLastSep_none (sep : Char) (s : GoString) (hs : sep ∉ s) :
    afterLastSep sep s = s := by
  unfold afterLastSep
  rw [takeWhile_all]
  · simp
  · intro x hx
    have : x ≠ sep := by
      rintro rfl
      exact hs (List.mem_reverse.mp hx)
    simpa using this

theorem afterLastSep_cases (sep : Char) (s : GoString) :
    (sep ∉ s ∧ afterLastSep sep s = s) ∨
    ∃ d b, s = d ++ sep :: b ∧ sep ∉ b ∧ afterLastSep sep s = b := by
  by_cases hs : sep ∈ s
  · right
    obtain ⟨d, b, hsplit, hb⟩ : ∃ d b, s = d ++ sep :: b ∧ sep ∉ b := by
      induction s with
      | nil => simp at hs
      | cons c cs ih =>
        by_cases hcs : sep ∈ cs
        · obtain ⟨d, b, h1, h2⟩ := ih hcs
          exact ⟨c :: d, b, by simp [h1], h2⟩
        · have hc : sep = c := by
            rcases List.mem_cons.mp hs with h | h
            · exact h
            · exact absurd h hcs
          exact ⟨[], cs, by simp [hc], hcs⟩
    exact ⟨d, b, hsplit, hb, by rw [hsplit, afterLastSep_split sep d b hb]⟩
  · left
    exact ⟨hs, afterLastSep_none sep s hs⟩

theorem afterLastSep_not_mem (sep : Char) (s : GoString) : sep ∉ afterLastSep sep s := by
  rcases afterLastSep_cases sep s with ⟨h1, h2⟩ | ⟨d, b, _, h2, h3⟩
  · rw [h2]; exact h1
  · rw [h3]; exact h2

theorem afterLastSep_append (sep : Char) (s x : GoString) (hx : sep ∉ x) :
    afterLastSep sep (s ++ x) = afterLastSep sep s ++ x := by
  rcases afterLastSep_cases sep s with ⟨h1, h2⟩ | ⟨d, b, h1, h2, h3⟩
  · rw [h2, afterLastSep_none]
    simp [h1, hx]
  · rw [h3]
    have : s ++ x = d ++ sep :: (b ++ x) := by simp [h1]
    rw [this, afterLastSep_split]
    simp [h2, hx]

theorem LastIndex_spec (s : GoString) (sep : Char) :
    (LastIndex s sep = -1 ∧ sep ∉ s) ∨
    ∃ d b, s = d ++ sep :: b ∧ sep ∉ b ∧ LastIndex s sep = (d.length : Int) := by
  induction s with
  | nil => left; simp [LastIndex]
  | cons c cs ih =>
    rcases ih with ⟨h1, h2⟩ | ⟨d, b, h1, h2, h3⟩
    · by_cases hc : c = sep
      · right
        refine ⟨[], cs, by simp [hc], h2, ?_⟩
        simp [LastIndex, h1, hc]
      · left
        refine ⟨by simp [LastIndex, h1, hc], ?_⟩
        simp [h2, Ne.symm hc]
    · right
      refine ⟨c :: d, b, by simp [h1], h2, ?_⟩
      have hne : (d.length : Int) ≠ -1 := by omega
      simp [LastIndex, h3, hne]

/-- The slice `uploadFileKey[i+1:]` of source line 137 is the part after the
last separator. -/
theorem drop_LastIndex (s : GoString) (sep : Char) :
    (if LastIndex s sep ≠ -1 then s.drop (LastIndex s sep + 1).toNat else s)
      = afterLastSep sep s := by
  rcases LastIndex_spec s sep with ⟨h1, h2⟩ | ⟨d, b, h1, h2, h3⟩
  · simp [h1, afterLastSep_none sep s h2]
  · have hne : (d.length : Int) ≠ -1 := by omega
    have hnat : ((d.length : Int) + 1).toNat = d.length + 1 := by omega
    rw [h3, if_pos hne, hnat]
    conv_lhs => rw [h1]
    conv_rhs => rw [h1]
    rw [afterLastSep_split sep d b h2]
    simp

theorem Replace_eq_map (s : GoString) (old new : Char) :
    Replace s old new = s.map (fun c => if c = old then new else c) := by
  induction s with
  | nil => rfl
  | cons c cs ih => simp [Replace, ih]

theorem toSlash_append (plat : Platform) (a b : GoString) :
    toSlash plat (a ++ b) = toSlash plat a ++ toSlash plat b := by
  unfold toSlash
  split <;> simp

theorem toSlash_length (plat : Platform) (a : GoString) :
    (toSlash plat a).length = a.length := by
  unfold toSlash
  split <;> simp

theorem map_slash_of_not_mem (a : GoString) (h : '\\' ∉ a) :
    a.map (fun c => if c = '\\' then '/' else c) = a := by
  induction a with
  | nil => rfl
  | cons c cs ih =>
    have hc : c ≠ '\\' := fun e => h (by simp [e])
    have hcs : '\\' ∉ cs := fun e => h (List.mem_cons_of_mem _ e)
    simp [hc, ih hcs]

theorem toSlash_of_not_mem (plat : Platform) (a : GoString)
    (h : plat.windows = true → '\\' ∉ a) : toSlash plat a = a := by
  unfold toSlash
  split
  · rename_i hw
    exact map_slash_of_not_mem a (h hw)
  · rfl

/-- The code's remote key: the prefix followed by the part of the path the
configuration keeps, the whole of it passed through the Windows rewriting. -/
theorem uploadFileKey_eq (cfg : UploadConfig) (plat : Platform) (p : GoString) :
    uploadFileKey cfg plat p
      = toSlash plat (cfg.KeyPrefix ++
          (if cfg.IgnoreDir then afterLastSep plat.pathSep p else p)) := by
  unfold uploadFileKey toSlash
  simp only [drop_LastIndex, Replace_eq_map]
  by_cases hp : cfg.KeyPrefix = [] <;> simp [hp]

/-! ## Lemmas on the number functions -/

theorem digitVal_ofNat : ∀ r, r < 10 → digitVal (Char.ofNat (48 + r)) = some r := by
  decide

theorem pow64 : (2 : Nat) ^ 64 - 1 = 18446744073709551615 := by norm_num

theorem parseUintLoop_digit (maxVal : Nat) (c : Char) (cs : GoString) (n d : Nat)
    (hd : digitVal c = some d) (h1 : n < 1844674407370955162) (h2 : n * 10 + d ≤ maxVal)
    (hM : maxVal ≤ 18446744073709551615) :
    parseUintLoop maxVal (c :: cs) n = parseUintLoop maxVal cs (n * 10 + d) := by
  conv_lhs => unfold parseUintLoop
  simp only [hd, pow64]
  rw [if_neg (by omega), if_neg (by omega)]

theorem parse_formatBits (maxVal : Nat) (hM : maxVal ≤ 2 ^ 64 - 1) :
    ∀ (fuel n : Nat) (acc : GoString), n < fuel → n ≤ maxVal →
      parseUintLoop maxVal (formatBits fuel n acc) 0 = parseUintLoop maxVal acc n := by
  rw [pow64] at hM
  intro fuel
  induction fuel with
  | zero => intro n acc h; omega
  | succ fuel ih =>
    intro n acc hn hle
    have hd := digitVal_ofNat (n % 10) (Nat.mod_lt _ (by decide))
    unfold formatBits
    by_cases hsmall : n / 10 = 0
    · simp only [hsmall, if_true]
      rw [parseUintLoop_digit maxVal _ acc 0 (n % 10) hd (by omega) (by omega) hM]
      congr 1
      omega
    · simp only [hsmall, if_false]
      rw [ih (n / 10) _ (by omega) (by omega),
        parseUintLoop_digit maxVal _ acc (n / 10) (n % 10) hd (by omega) (by omega) hM]
      congr 1
      omega

theorem formatBits_head : ∀ (fuel n : Nat) (acc : GoString), 0 < fuel →
    ∃ c cs, formatBits fuel n acc = c :: cs ∧ (digitVal c).isSome := by
  intro fuel
  induction fuel with
  | zero => intro n acc h; omega
  | succ fuel ih =>
    intro n acc _
    unfold formatBits
    have hd := digitVal_ofNat (n % 10) (Nat.mod_lt _ (by decide))
    by_cases hsmall : n / 10 = 0
    · simp only [hsmall, if_true]
      exact ⟨_, _, rfl, by simp [hd]⟩
    · simp only [hsmall, if_false]
      cases fuel with
      | zero => exact ⟨_, _, rfl, by simp [hd]⟩
      | succ f => exact ih _ _ (by omega)

/-- `strconv.Atoi` reads back what `strconv.Itoa` writes, for every value of
an `int` of `bits` bits. -/
theorem Atoi_Itoa (bits : Nat) (hb : 1 ≤ bits) (hb64 : bits ≤ 64) (t : Int)
    (hlo : -((2 ^ (bits - 1) : Nat) : Int) ≤ t) (hhi : t < ((2 ^ (bits - 1) : Nat) : Int)) :
    Atoi bits (Itoa t) = (t, .nil) := by
  have hpow : 2 ^ bits = 2 * 2 ^ (bits - 1) := by
    have : bits = (bits - 1) + 1 := by omega
    conv_lhs => rw [this, Nat.pow_succ]
    omega
  have hle64 : 2 ^ bits ≤ 2 ^ 64 := Nat.pow_le_pow_right (by decide) hb64
  have hpos : 0 < 2 ^ (bits - 1) := Nat.two_pow_pos _
  generalize hC : 2 ^ (bits - 1) = C at *
  have hM : 2 ^ bits - 1 ≤ 2 ^ 64 - 1 := by omega
  obtain ⟨c, cs, hfmt, hdig⟩ := formatBits_head (t.natAbs + 1) t.natAbs [] (by omega)
  have hparse := parse_formatBits (2 ^ bits - 1) hM (t.natAbs + 1) t.natAbs [] (by omega)
    (by omega)
  have hne : formatBits (t.natAbs + 1) t.natAbs [] ≠ [] := by simp [hfmt]
  have hU : ParseUint (formatBits (t.natAbs + 1) t.natAbs []) bits = (t.natAbs, .nil) := by
    unfold ParseUint
    rw [if_neg hne, hparse]
    rfl
  have h1 : ¬ (NumError.nil = NumError.errSyntax) := by decide
  unfold Atoi Itoa
  by_cases hneg : t < 0
  · rw [if_pos hneg]
    unfold ParseInt
    simp only [true_or, or_true, if_true, hU, hC]
    have h2 : ¬ (t.natAbs > C) := by omega
    simp only [h1, if_false, h2, and_false, not_true_eq_false, false_and]
    congr 1
    omega
  · rw [if_neg hneg, hfmt]
    have hplus : c ≠ '+' := by
      rintro rfl
      simp [digitVal] at hdig
    have hminus : c ≠ '-' := by
      rintro rfl
      simp [digitVal] at hdig
    unfold ParseInt
    simp only [hplus, hminus, or_self, if_false, ← hfmt, hU, hC]
    have h2 : ¬ (t.natAbs ≥ C) := by omega
    simp only [h1, if_false, h2, and_false, not_false_eq_true, false_and]
    congr 1
    omega

theorem Atoi_range (bits : Nat) (s : GoString) :
    -((2 ^ (bits - 1) : Nat) : Int) ≤ (Atoi bits s).1 ∧
    (Atoi bits s).1 < ((2 ^ (bits - 1) : Nat) : Int) := by
  have hpos : 0 < 2 ^ (bits - 1) := Nat.two_pow_pos _
  unfold Atoi ParseInt
  cases s with
  | nil => simp only; omega
  | cons c cs =>
    simp only
    generalize 2 ^ (bits - 1) = C at *
    generalize (ParseUint (if c = '+' ∨ c = '-' then cs else c :: cs) bits) = r
    obtain ⟨un, err⟩ := r
    simp only
    by_cases hsyn : err = NumError.errSyntax
    · rw [if_pos hsyn]
      simp only
      omega
    · rw [if_neg hsyn]
      by_cases hneg : c = '-'
      · simp only [hneg, not_true_eq_false, false_and, if_false, true_and, if_true]
        by_cases hgt : un > C
        · rw [if_pos hgt]
          simp only
          omega
        · rw [if_neg hgt]
          simp only
          omega
      · simp only [hneg, not_false_eq_true, true_and, false_and, if_false]
        by_cases hge : un ≥ C
        · rw [if_pos hge]
          simp only
          omega
        · rw [if_neg hge]
          simp only
          omega

/-! ## Key derivation -/

/-- C6, as stated, fails: on Windows the rewriting of backslashes runs over
the whole key, so a backslash of the key prefix is written as `/` and the
key is not the literal prefix followed by the body. -/
theorem key_prefix_rewritten_on_windows :
    uploadFileKey backslashConfig windows64 "a.jpg".toList = "p/a.jpg".toList ∧
    claimedKey backslashConfig windows64 "a.jpg".toList = "p\\a.jpg".toList ∧
    uploadFileKey backslashConfig windows64 "a.jpg".toList
      ≠ claimedKey backslashConfig windows64 "a.jpg".toList := by
  decide

/-- C6, amended: the remote key is the key prefix, with its backslashes
written as `/` on Windows, followed by the body the specification describes;
it is the literal prefix followed by the body on every platform other than
Windows and whenever the prefix holds no backslash, and with prefix `2024/`
and no flattening `a.jpg` and `b/c.jpg` map to `2024/a.jpg` and
`2024/b/c.jpg`. -/
theorem uploadFileKey_spec (cfg : UploadConfig) (plat : Platform) (p : GoString) :
    uploadFileKey cfg plat p = toSlash plat cfg.KeyPrefix ++ claimedBody cfg plat p ∧
    (plat.windows = false → uploadFileKey cfg plat p = claimedKey cfg plat p) ∧
    ('\\' ∉ cfg.KeyPrefix → uploadFileKey cfg plat p = claimedKey cfg plat p) ∧
    uploadFileKey prefixConfig linux64 "a.jpg".toList = "2024/a.jpg".toList ∧
    uploadFileKey prefixConfig linux64 "b/c.jpg".toList = "2024/b/c.jpg".toList := by
  have hkey : uploadFileKey cfg plat p
      = toSlash plat cfg.KeyPrefix ++ claimedBody cfg plat p := by
    rw [uploadFileKey_eq, toSlash_append]
    rfl
  refine ⟨hkey, ?_, ?_, by decide, by decide⟩
  · intro hw
    rw [hkey, toSlash_of_not_mem plat cfg.KeyPrefix (by simp [hw])]
    rfl
  · intro hp
    rw [hkey, toSlash_of_not_mem plat cfg.KeyPrefix (fun _ => hp)]
    rfl

/-- Two paths of which one extends the other have different state-store
keys under flattening. -/
theorem flat_key_extension (sep : Char) (m p x : GoString)
    (h : p ++ (m ++ afterLastSep sep p) = (p ++ x) ++ (m ++ afterLastSep sep (p ++ x))) :
    x = [] := by
  have h1 : m ++ afterLastSep sep p = x ++ (m ++ afterLastSep sep (p ++ x)) := by
    rw [List.append_assoc] at h
    exact List.append_cancel_left h
  have hcount := congrArg (List.count sep) h1
  simp only [List.count_append, List.count_eq_zero_of_not_mem (afterLastSep_not_mem sep _)]
    at hcount
  have hx : sep ∉ x := by
    apply List.count_eq_zero.mp
    omega
  have hlen := congrArg List.length h1
  rw [afterLastSep_append sep p x hx] at hlen
  simp only [List.length_append] at hlen
  apply List.eq_nil_of_length_eq_zero
  omega

/-- Equal state-store keys come from equal relative paths. -/
theorem ldbKey_inj (cfg : UploadConfig) (plat : Platform) (p1 p2 : GoString)
    (heq : ldbKey cfg plat p1 = ldbKey cfg plat p2) : p1 = p2 := by
  unfold ldbKey cacheFilePath at heq
  rw [uploadFileKey_eq, uploadFileKey_eq, toSlash_append, toSlash_append] at heq
  have heq1 : p1 ++ (" => ".toList ++ (toSlash plat cfg.KeyPrefix ++
        toSlash plat (if cfg.IgnoreDir then afterLastSep plat.pathSep p1 else p1)))
      = p2 ++ (" => ".toList ++ (toSlash plat cfg.KeyPrefix ++
        toSlash plat (if cfg.IgnoreDir then afterLastSep plat.pathSep p2 else p2))) := by
    have h2 : cfg.SrcDir ++ plat.pathSep :: p1 = (cfg.SrcDir ++ [plat.pathSep]) ++ p1 := by
      simp
    have h3 : cfg.SrcDir ++ plat.pathSep :: p2 = (cfg.SrcDir ++ [plat.pathSep]) ++ p2 := by
      simp
    rw [h2, h3] at heq
    simp only [List.append_assoc] at heq
    exact List.append_cancel_left (List.append_cancel_left heq)
  by_cases hflat : cfg.IgnoreDir = true
  · have hbody : ∀ q, toSlash plat (afterLastSep plat.pathSep q)
        = afterLastSep plat.pathSep q := by
      intro q
      apply toSlash_of_not_mem
      intro hw
      have hsep : plat.pathSep = '\\' := by simp [Platform.pathSep, hw]
      intro hmem
      apply afterLastSep_not_mem plat.pathSep q
      rw [hsep]
      rw [hsep] at hmem
      exact hmem
    simp only [hflat, if_true, hbody] at heq1
    rw [← List.append_assoc " => ".toList, ← List.append_assoc " => ".toList] at heq1
    rcases List.append_eq_append_iff.mp heq1 with ⟨x, hx, -⟩ | ⟨x, hx, -⟩
    · subst hx
      have hnil := flat_key_extension plat.pathSep _ p1 x heq1
      simp [hnil]
    · subst hx
      have hnil := flat_key_extension plat.pathSep _ p2 x heq1.symm
      simp [hnil]
  · have hlen := congrArg List.length heq1
    simp only [hflat, List.length_append, toSlash_length] at hlen
    have hl : p1.length = p2.length := by
      simp at hlen
      omega
    exact (List.append_inj heq1 hl).1

/-- C10: for a fixed configuration and platform, two different relative
paths get different state-store keys, also when flattening gives them the
same remote key and whatever text the names contain. -/
theorem ldbKey_injective (cfg : UploadConfig) (plat : Platform) (p1 p2 : GoString)
    (h : p1 ≠ p2) : ldbKey cfg plat p1 ≠ ldbKey cfg plat p2 :=
  fun heq => h (ldbKey_inj cfg plat p1 p2 heq)

/-- C10 at two paths that flattening maps to the same remote key. -/
theorem ldbKey_injective_witness :
    "a/x".toList ≠ "b/x".toList ∧
    uploadFileKey flatConfig linux64 "a/x".toList
      = uploadFileKey flatConfig linux64 "b/x".toList ∧
    ldbKey flatConfig linux64 "a/x".toList ≠ ldbKey flatConfig linux64 "b/x".toList :=
  ⟨by decide, by decide, ldbKey_injective flatConfig linux64 _ _ (by decide)⟩

/-! ## The upload goroutine -/

/-- The four outcomes of each branch of the goroutine, written out. -/
theorem uploadJob_cases (w : World) (cfg : UploadConfig) (job : Job) (ldb : Ldb) :
    uploadJob w cfg job ldb =
      if job.fsize > PUT_THRESHOLD then
        if w.rioPutFile (policyScope cfg job.uploadFileKey) job.uploadFileKey
            job.cacheFilePath = true then
          if w.ldbPut job.ldbKey "Y".toList = true then
            (ldb.put job.ldbKey "Y".toList,
              [.rioPutFile (policyScope cfg job.uploadFileKey) job.uploadFileKey
                  job.cacheFilePath,
                .ldbPut job.ldbKey "Y".toList])
          else
            (ldb,
              [.rioPutFile (policyScope cfg job.uploadFileKey) job.uploadFileKey
                  job.cacheFilePath,
                .ldbPut job.ldbKey "Y".toList, .errLdbPut job.ldbKey])
        else
          (ldb,
            [.rioPutFile (policyScope cfg job.uploadFileKey) job.uploadFileKey
                job.cacheFilePath,
              .errPutFile job.cacheFilePath job.uploadFileKey])
      else
        if w.fioPutFile (policyScope cfg job.uploadFileKey) job.uploadFileKey
            job.cacheFilePath = true then
          if w.ldbPut job.ldbKey (Itoa job.cacheFlmd) = true then
            (ldb.put job.ldbKey (Itoa job.cacheFlmd),
              [.fioPutFile (policyScope cfg job.uploadFileKey) job.uploadFileKey
                  job.cacheFilePath,
                .ldbPut job.ldbKey (Itoa job.cacheFlmd)])
          else
            (ldb,
              [.fioPutFile (policyScope cfg job.uploadFileKey) job.uploadFileKey
                  job.cacheFilePath,
                .ldbPut job.ldbKey (Itoa job.cacheFlmd), .errLdbPut job.ldbKey])
        else
          (ldb,
            [.fioPutFile (policyScope cfg job.uploadFileKey) job.uploadFileKey
                job.cacheFilePath,
              .errPutFile job.cacheFilePath job.uploadFileKey]) := rfl

theorem PUT_THRESHOLD_eq : PUT_THRESHOLD = 104857600 := by decide

/-- C7: the goroutine calls the resumable transfer exactly when the size is
above `PUT_THRESHOLD`, which is 104857600, the simple transfer exactly when
it is not, and makes exactly one transfer call. -/
theorem strategy_selection (w : World) (cfg : UploadConfig) (job : Job) (ldb : Ldb) :
    PUT_THRESHOLD = 104857600 ∧
    ((∃ sc k f, Event.rioPutFile sc k f ∈ (uploadJob w cfg job ldb).2)
      ↔ job.fsize > 104857600) ∧
    ((∃ sc k f, Event.fioPutFile sc k f ∈ (uploadJob w cfg job ldb).2)
      ↔ job.fsize ≤ 104857600) ∧
    ((uploadJob w cfg job ldb).2.filter Event.isTransfer).length = 1 ∧
    (uploadJob w cfg { job with fsize := 104857600 } ldb).2.head?
      = some (.fioPutFile (policyScope cfg job.uploadFileKey) job.uploadFileKey
          job.cacheFilePath) ∧
    (uploadJob w cfg { job with fsize := 104857601 } ldb).2.head?
      = some (.rioPutFile (policyScope cfg job.uploadFileKey) job.uploadFileKey
          job.cacheFilePath) := by
  have hnot : ¬ job.fsize ≤ 104857600 ↔ job.fsize > 104857600 := by omega
  refine ⟨PUT_THRESHOLD_eq, ?_, ?_, ?_, ?_, ?_⟩
  · rw [uploadJob_cases, PUT_THRESHOLD_eq]
    split_ifs <;> simp [*]
  · rw [uploadJob_cases, PUT_THRESHOLD_eq]
    split_ifs with hs <;> simp [*] <;> omega
  · rw [uploadJob_cases]
    split_ifs <;> simp [Event.isTransfer]
  · rw [uploadJob_cases, PUT_THRESHOLD_eq]
    split_ifs with hs <;> first | rfl | simp at hs
  · rw [uploadJob_cases, PUT_THRESHOLD_eq]
    split_ifs with hs <;> first | rfl | simp at hs

/-- C2: the goroutine calls `ldb.Put` only under its own key and only after
its transfer call returned no error; when the transfer call returns an error
it makes no `ldb.Put` and leaves the store as it was; it changes the store
under no other key. -/
theorem commit_only_on_success (w : World) (cfg : UploadConfig) (job : Job) (ldb : Ldb) :
    (∀ k v, Event.ldbPut k v ∈ (uploadJob w cfg job ldb).2 →
      k = job.ldbKey ∧
      ((job.fsize > PUT_THRESHOLD ∧
          w.rioPutFile (policyScope cfg job.uploadFileKey) job.uploadFileKey
            job.cacheFilePath = true) ∨
       (¬ job.fsize > PUT_THRESHOLD ∧
          w.fioPutFile (policyScope cfg job.uploadFileKey) job.uploadFileKey
            job.cacheFilePath = true))) ∧
    (job.fsize > PUT_THRESHOLD →
      w.rioPutFile (policyScope cfg job.uploadFileKey) job.uploadFileKey
        job.cacheFilePath = false →
      (uploadJob w cfg job ldb).1 = ldb ∧
      ∀ k v, Event.ldbPut k v ∉ (uploadJob w cfg job ldb).2) ∧
    (¬ job.fsize > PUT_THRESHOLD →
      w.fioPutFile (policyScope cfg job.uploadFileKey) job.uploadFileKey
        job.cacheFilePath = false →
      (uploadJob w cfg job ldb).1 = ldb ∧
      ∀ k v, Event.ldbPut k v ∉ (uploadJob w cfg job ldb).2) ∧
    (∀ k, (uploadJob w cfg job ldb).1 k ≠ ldb k → k = job.ldbKey) := by
  refine ⟨?_, ?_, ?_, ?_⟩
  · intro k v hmem
    rw [uploadJob_cases] at hmem
    split_ifs at hmem with hs hr hp hr hp <;> simp at hmem <;> simp [hmem.1, hs, hr]
  · intro hs hr
    rw [uploadJob_cases]
    simp [hs, hr]
  · intro hs hr
    rw [uploadJob_cases]
    simp [hs, hr]
  · intro k hk
    by_contra hne
    apply hk
    rw [uploadJob_cases]
    split_ifs <;> simp [Ldb.put, hne]

/-! ## Goroutines finishing -/

theorem uploadJob_events (w : World) (cfg : UploadConfig) (job : Job) (ldb : Ldb) :
    ∀ e ∈ (uploadJob w cfg job ldb).2, e.fromScanner = false := by
  rw [uploadJob_cases]
  split_ifs <;> simp [Event.fromScanner]

theorem finishJob_inFlight (w : World) (cfg : UploadConfig) (n : Nat) (s : RunState) :
    (finishJob w cfg n s).inFlight = s.inFlight.filter (fun j => j.launch ≠ n) := by
  unfold finishJob
  split
  · rename_i hnone
    symm
    apply List.filter_eq_self.mpr
    intro j hj
    have := List.find?_eq_none.mp hnone j hj
    simpa using this
  · rfl

theorem finishJob_upCounter (w : World) (cfg : UploadConfig) (n : Nat) (s : RunState) :
    (finishJob w cfg n s).upCounter = s.upCounter ∧
    (finishJob w cfg n s).currentFileCount = s.currentFileCount := by
  unfold finishJob
  split <;> exact ⟨rfl, rfl⟩

theorem finishJob_trace (w : World) (cfg : UploadConfig) (n : Nat) (s : RunState) :
    ∃ evs, (finishJob w cfg n s).trace = s.trace ++ evs ∧
      ∀ e ∈ evs, e.fromScanner = false := by
  unfold finishJob
  split
  · exact ⟨[], by simp, by simp⟩
  · rename_i job _
    exact ⟨(uploadJob w cfg job s.ldb).2, rfl, uploadJob_events w cfg job s.ldb⟩

theorem finishJobs_inFlight (w : World) (cfg : UploadConfig) (ns : List Nat) (s : RunState) :
    (finishJobs w cfg ns s).inFlight = s.inFlight.filter (fun j => j.launch ∉ ns) := by
  induction ns generalizing s with
  | nil => simp [finishJobs]
  | cons n ns ih =>
    have hstep : finishJobs w cfg (n :: ns) s = finishJobs w cfg ns (finishJob w cfg n s) := rfl
    rw [hstep, ih, finishJob_inFlight, List.filter_filter]
    apply List.filter_congr
    intro j _
    by_cases h1 : j.launch = n <;> simp [h1]

theorem finishJobs_upCounter (w : World) (cfg : UploadConfig) (ns : List Nat) (s : RunState) :
    (finishJobs w cfg ns s).upCounter = s.upCounter ∧
    (finishJobs w cfg ns s).currentFileCount = s.currentFileCount := by
  induction ns generalizing s with
  | nil => exact ⟨rfl, rfl⟩
  | cons n ns ih =>
    have hstep : finishJobs w cfg (n :: ns) s = finishJobs w cfg ns (finishJob w cfg n s) := rfl
    rw [hstep]
    exact ⟨(ih _).1.trans (finishJob_upCounter w cfg n s).1,
      (ih _).2.trans (finishJob_upCounter w cfg n s).2⟩

theorem finishJobs_trace (w : World) (cfg : UploadConfig) (ns : List Nat) (s : RunState) :
    ∃ evs, (finishJobs w cfg ns s).trace = s.trace ++ evs ∧
      ∀ e ∈ evs, e.fromScanner = false := by
  induction ns generalizing s with
  | nil => exact ⟨[], by simp [finishJobs], by simp⟩
  | cons n ns ih =>
    have hstep : finishJobs w cfg (n :: ns) s = finishJobs w cfg ns (finishJob w cfg n s) := rfl
    obtain ⟨e1, h1, h1s⟩ := finishJob_trace w cfg n s
    obtain ⟨e2, h2, h2s⟩ := ih (finishJob w cfg n s)
    refine ⟨e1 ++ e2, by rw [hstep, h2, h1, List.append_assoc], ?_⟩
    intro e he
    rcases List.mem_append.mp he with h | h
    · exact h1s e h
    · exact h2s e h

theorem filter_launched (jobs : List Job) :
    jobs.filter (fun j => j.launch ∉ jobs.map (fun job => job.launch)) = [] := by
  apply List.filter_eq_nil_iff.mpr
  intro j hj
  have : j.launch ∈ jobs.map (fun job => job.launch) := List.mem_map_of_mem _ hj
  simpa using this

/-- After `upWorkGroup.Wait()` no goroutine is in flight. -/
theorem waitAll_inFlight (w : World) (cfg : UploadConfig) (i : Nat) (s : RunState) :
    (waitAll w cfg i s).inFlight = [] := by
  unfold waitAll
  rw [finishJobs_inFlight]
  exact filter_launched _

theorem waitAll_upCounter (w : World) (cfg : UploadConfig) (i : Nat) (s : RunState) :
    (waitAll w cfg i s).upCounter = s.upCounter ∧
    (waitAll w cfg i s).currentFileCount = s.currentFileCount := by
  unfold waitAll
  exact ⟨(finishJobs_upCounter w cfg _ _).1.trans (finishJobs_upCounter w cfg _ s).1,
    (finishJobs_upCounter w cfg _ _).2.trans (finishJobs_upCounter w cfg _ s).2⟩

theorem waitAll_trace (w : World) (cfg : UploadConfig) (i : Nat) (s : RunState) :
    ∃ evs, (waitAll w cfg i s).trace = s.trace ++ evs ∧
      ∀ e ∈ evs, e.fromScanner = false := by
  unfold waitAll
  obtain ⟨e1, h1, h1s⟩ := finishJobs_trace w cfg (w.waitOrder i) s
  obtain ⟨e2, h2, h2s⟩ := finishJobs_trace w cfg
    ((finishJobs w cfg (w.waitOrder i) s).inFlight.map (fun job => job.launch))
    (finishJobs w cfg (w.waitOrder i) s)
  refine ⟨e1 ++ e2, by simp only [h2, h1, List.append_assoc], ?_⟩
  intro e he
  rcases List.mem_append.mp he with h | h
  · exact h1s e h
  · exact h2s e h

/-! ## The branches of the scanner's iteration -/

/-- A line of fewer than two fields: the `else` branch of source line 212. -/
theorem scanLine_short (w : World) (cfg : UploadConfig) (plat : Platform)
    (threadCount : Int) (i : Nat) (text : GoString) (s : RunState)
    (h : (Split (TrimSpace text) '\t').length < 2) :
    scanLine w cfg plat threadCount i text s
      = (.next, { s with trace := s.trace ++ [.errCacheLine (TrimSpace text)] }) := by
  have hlen : ¬ (Split (TrimSpace text) '\t').length > 1 := by omega
  simp only [scanLine, hlen, if_false]

/-- A line of two fields: `items[2]` panics. -/
theorem scanLine_two (w : World) (cfg : UploadConfig) (plat : Platform)
    (threadCount : Int) (i : Nat) (text : GoString) (s : RunState)
    (h : (Split (TrimSpace text) '\t').length = 2) :
    scanLine w cfg plat threadCount i text s = (.panicked, s) := by
  have hlen : (Split (TrimSpace text) '\t').length > 1 := by omega
  have hget : (Split (TrimSpace text) '\t').get? 2 = none := by
    apply List.get?_eq_none.mpr
    omega
  simp only [scanLine, hlen, if_true, hget]

/-- A line of three fields or more whose local file cannot be statted: the
`return` of source line 151. -/
theorem scanLine_stat_error (w : World) (cfg : UploadConfig) (plat : Platform)
    (threadCount : Int) (i : Nat) (text : GoString) (s : RunState)
    (h : 3 ≤ (Split (TrimSpace text) '\t').length)
    (hstat : w.stat (cacheFilePath cfg plat ((Split (TrimSpace text) '\t').headD [])) = none) :
    scanLine w cfg plat threadCount i text s
      = (.returned, { s with trace := s.trace ++
          [.errStat (cacheFilePath cfg plat ((Split (TrimSpace text) '\t').headD []))] }) := by
  have hlen : (Split (TrimSpace text) '\t').length > 1 := by omega
  obtain ⟨item2, hget⟩ : ∃ item2, (Split (TrimSpace text) '\t').get? 2 = some item2 :=
    ⟨_, List.get?_eq_get (by omega)⟩
  simp only [scanLine, hlen, if_true, hget, hstat]

/-- A line of three fields or more whose local file is there: the entry is
skipped when the store holds its modification time, and a goroutine is
launched for it otherwise, after the throttle. -/
theorem scanLine_entry (w : World) (cfg : UploadConfig) (plat : Platform)
    (threadCount : Int) (i : Nat) (text : GoString) (s : RunState)
    (item2 : GoString) (fsize : Int)
    (hget : (Split (TrimSpace text) '\t').get? 2 = some item2)
    (hstat : w.stat (cacheFilePath cfg plat ((Split (TrimSpace text) '\t').headD []))
      = some fsize) :
    scanLine w cfg plat threadCount i text s =
      if (s.ldb (ldbKey cfg plat ((Split (TrimSpace text) '\t').headD []))).isSome ∧
          (Atoi plat.intSize item2).1 = (Atoi plat.intSize
            ((s.ldb (ldbKey cfg plat ((Split (TrimSpace text) '\t').headD []))).getD [])).1 then
        (.next, { s with currentFileCount := s.currentFileCount + 1 })
      else if threadCount + 1 = 0 then
        (.panicked, s.announce (ldbKey cfg plat ((Split (TrimSpace text) '\t').headD [])))
      else
        (.next,
          (throttle w cfg (threadCount + 1) i
            (s.announce (ldbKey cfg plat ((Split (TrimSpace text) '\t').headD [])))).launch
            ⟨s.upCounter + 1, uploadFileKey cfg plat ((Split (TrimSpace text) '\t').headD []),
              cacheFilePath cfg plat ((Split (TrimSpace text) '\t').headD []),
              ldbKey cfg plat ((Split (TrimSpace text) '\t').headD []), fsize,
              (Atoi plat.intSize item2).1⟩) := by
  have hlen : (Split (TrimSpace text) '\t').length > 1 := by
    obtain ⟨hlt, _⟩ := List.get?_eq_some.mp hget
    omega
  simp only [scanLine, hlen, if_true, hget, hstat]
  rfl

theorem fields_cases (text : GoString) :
    (Split (TrimSpace text) '\t').length < 2 ∨
    (Split (TrimSpace text) '\t').length = 2 ∨
    ∃ item2, (Split (TrimSpace text) '\t').get? 2 = some item2 := by
  by_cases h1 : (Split (TrimSpace text) '\t').length < 2
  · exact Or.inl h1
  · by_cases h2 : (Split (TrimSpace text) '\t').length = 2
    · exact Or.inr (Or.inl h2)
    · exact Or.inr (Or.inr ⟨_, List.get?_eq_get (by omega)⟩)

theorem throttle_trace (w : World) (cfg : UploadConfig) (threadThreshold : Int) (i : Nat)
    (s : RunState) :
    ∃ evs, (throttle w cfg threadThreshold i s).trace = s.trace ++ evs ∧
      ∀ e ∈ evs, e.fromScanner = false := by
  unfold throttle
  split
  · exact waitAll_trace w cfg i s
  · exact ⟨[], by simp, by simp⟩

theorem Atoi_syntax_error (intSize : Nat) (item : GoString)
    (h : (Atoi intSize item).2 = .errSyntax) : (Atoi intSize item).1 = 0 := by
  unfold Atoi ParseInt at *
  cases item with
  | nil => rfl
  | cons c cs =>
    simp only at h ⊢
    split_ifs at h ⊢ <;> rfl

theorem scanLine_of_entry (w : World) (cfg : UploadConfig) (plat : Platform)
    (threadCount : Int) (i : Nat) (text : GoString) (s : RunState) (fsize : Int)
    (he : isEntry text)
    (hstat : w.stat (cacheFilePath cfg plat (fnameOf text)) = some fsize) :
    scanLine w cfg plat threadCount i text s =
      if (s.ldb (ldbKey cfg plat (fnameOf text))).isSome ∧
          flmdOf plat text
            = (Atoi plat.intSize ((s.ldb (ldbKey cfg plat (fnameOf text))).getD [])).1 then
        (.next, { s with currentFileCount := s.currentFileCount + 1 })
      else if threadCount + 1 = 0 then
        (.panicked, s.announce (ldbKey cfg plat (fnameOf text)))
      else
        (.next,
          (throttle w cfg (threadCount + 1) i
            (s.announce (ldbKey cfg plat (fnameOf text)))).launch
            ⟨s.upCounter + 1, uploadFileKey cfg plat (fnameOf text),
              cacheFilePath cfg plat (fnameOf text), ldbKey cfg plat (fnameOf text), fsize,
              flmdOf plat text⟩) := by
  obtain ⟨item2, hget⟩ : ∃ item2, (Split (TrimSpace text) '\t').get? 2 = some item2 :=
    ⟨_, List.get?_eq_get (by unfold isEntry at he; omega)⟩
  rw [scanLine_entry w cfg plat threadCount i text s item2 fsize hget hstat]
  simp only [fnameOf, flmdOf, hget, Option.getD_some]

theorem throttle_upCounter (w : World) (cfg : UploadConfig) (threadThreshold : Int)
    (i : Nat) (s : RunState) :
    (throttle w cfg threadThreshold i s).upCounter = s.upCounter := by
  unfold throttle
  split
  · exact (waitAll_upCounter w cfg i s).1
  · rfl

theorem Atoi_Y (intSize : Nat) : (Atoi intSize "Y".toList).1 = 0 := rfl

theorem intSize_cases (plat : Platform) :
    1 ≤ plat.intSize ∧ plat.intSize ≤ 64 := by
  unfold Platform.intSize
  split <;> omega

/-! ## The skip test after a commit -/

/-- An entry whose record reads as its modification time is skipped: no
job, the store and the goroutines in flight as they were. -/
theorem recorded_time_is_skipped (w : World) (cfg : UploadConfig) (plat : Platform)
    (threadCount : Int) (i : Nat) (text : GoString) (s : RunState) (fsize : Int)
    (v : GoString) (he : isEntry text)
    (hstat : w.stat (cacheFilePath cfg plat (fnameOf text)) = some fsize)
    (hrec : s.ldb (ldbKey cfg plat (fnameOf text)) = some v)
    (hv : (Atoi plat.intSize v).1 = flmdOf plat text) :
    scanLine w cfg plat threadCount i text s
      = (.next, { s with currentFileCount := s.currentFileCount + 1 }) := by
  rw [scanLine_of_entry w cfg plat threadCount i text s fsize he hstat, hrec]
  simp [hv]

/-- The simple branch and the skip test agree: an entry whose record is the
decimal string of a modification time `t` is skipped when the manifest
lists it with `t`, and is dispatched when the manifest lists it with any
other time. -/
theorem simple_record_decides_by_time (w : World) (cfg : UploadConfig) (plat : Platform)
    (threadCount : Int) (htc : threadCount + 1 ≠ 0) (i : Nat) (text : GoString)
    (s : RunState) (fsize : Int) (t : Int) (he : isEntry text)
    (hstat : w.stat (cacheFilePath cfg plat (fnameOf text)) = some fsize)
    (hlo : -((2 ^ (plat.intSize - 1) : Nat) : Int) ≤ t)
    (hhi : t < ((2 ^ (plat.intSize - 1) : Nat) : Int))
    (hrec : s.ldb (ldbKey cfg plat (fnameOf text)) = some (Itoa t)) :
    (flmdOf plat text = t →
      scanLine w cfg plat threadCount i text s
        = (.next, { s with currentFileCount := s.currentFileCount + 1 })) ∧
    (flmdOf plat text ≠ t →
      (scanLine w cfg plat threadCount i text s).1 = .next ∧
      (scanLine w cfg plat threadCount i text s).2.upCounter = s.upCounter + 1 ∧
      (⟨s.upCounter + 1, uploadFileKey cfg plat (fnameOf text),
          cacheFilePath cfg plat (fnameOf text), ldbKey cfg plat (fnameOf text), fsize,
          flmdOf plat text⟩ : Job) ∈ (scanLine w cfg plat threadCount i text s).2.inFlight) := by
  have hrt := Atoi_Itoa plat.intSize (intSize_cases plat).1 (intSize_cases plat).2 t hlo hhi
  constructor
  · intro heq
    exact recorded_time_is_skipped w cfg plat threadCount i text s fsize (Itoa t) he hstat hrec
      (by rw [hrt, heq])
  · intro hne
    rw [scanLine_of_entry w cfg plat threadCount i text s fsize he hstat, hrec]
    simp only [Option.getD_some, hrt, Option.isSome_some, true_and, hne, if_false, htc]
    refine ⟨?_, ?_⟩
    · show (throttle w cfg (threadCount + 1) i _).upCounter = _
      rw [throttle_upCounter]
      rfl
    · simp [RunState.launch]

/-- The resumable branch and the skip test disagree: an entry whose record
is `Y` is skipped exactly when the manifest lists it with time 0, whatever
time it was uploaded at. -/
theorem Y_record_reads_as_zero (w : World) (cfg : UploadConfig) (plat : Platform)
    (threadCount : Int) (htc : threadCount + 1 ≠ 0) (i : Nat) (text : GoString)
    (s : RunState) (fsize : Int) (he : isEntry text)
    (hstat : w.stat (cacheFilePath cfg plat (fnameOf text)) = some fsize)
    (hrec : s.ldb (ldbKey cfg plat (fnameOf text)) = some "Y".toList) :
    (flmdOf plat text = 0 →
      scanLine w cfg plat threadCount i text s
        = (.next, { s with currentFileCount := s.currentFileCount + 1 })) ∧
    (flmdOf plat text ≠ 0 →
      (scanLine w cfg plat threadCount i text s).1 = .next ∧
      (scanLine w cfg plat threadCount i text s).2.upCounter = s.upCounter + 1) := by
  constructor
  · intro heq
    exact recorded_time_is_skipped w cfg plat threadCount i text s fsize _ he hstat hrec
      (by rw [Atoi_Y, heq])
  · intro hne
    rw [scanLine_of_entry w cfg plat threadCount i text s fsize he hstat, hrec]
    simp only [Option.getD_some, Atoi_Y, Option.isSome_some, true_and, hne, if_false, htc]
    show (throttle w cfg (threadCount + 1) i _).upCounter = _
    rw [throttle_upCounter]
    rfl

/-! ## A run without files above the threshold -/

theorem finishJob_synced (w : World) (cfg : UploadConfig) (plat : Platform)
    (all seen : GoString → Prop)
    (hfio : ∀ sc k f, w.fioPutFile sc k f = true) (hput : ∀ k v, w.ldbPut k v = true)
    (hcons : ∀ t1 t2, all t1 → all t2 → fnameOf t1 = fnameOf t2 →
      flmdOf plat t1 = flmdOf plat t2)
    (n : Nat) (s : RunState) (h : Synced cfg plat all seen s) :
    Synced cfg plat all seen (finishJob w cfg n s) := by
  unfold finishJob
  split
  · exact h
  · rename_i job hfind
    have hmem : job ∈ s.inFlight := List.mem_of_find?_eq_some hfind
    have hlaunch : job.launch = n := by
      have := List.find?_some hfind
      simpa using this
    obtain ⟨hsize, t0, hseen0, hkey0, hflmd0⟩ := h.jobs job hmem
    have hres : uploadJob w cfg job s.ldb
        = (s.ldb.put job.ldbKey (Itoa job.cacheFlmd),
            [.fioPutFile (policyScope cfg job.uploadFileKey) job.uploadFileKey
                job.cacheFilePath,
              .ldbPut job.ldbKey (Itoa job.cacheFlmd)]) := by
      rw [uploadJob_cases, if_neg (by omega), if_pos (hfio _ _ _), if_pos (hput _ _)]
    have hsubl : ∀ j, j ∈ s.inFlight.filter (fun j => j.launch ≠ n) → j ∈ s.inFlight :=
      fun j hj => List.mem_of_mem_filter hj
    refine ⟨h.sub, ?_, ?_, ?_, ?_⟩
    · exact h.launches.sublist (List.Sublist.map _ (List.filter_sublist _))
    · intro j hj
      exact h.bound j (hsubl j hj)
    · intro j hj
      exact h.jobs j (hsubl j hj)
    · intro t ht
      by_cases hk : ldbKey cfg plat (fnameOf t) = job.ldbKey
      · left
        refine ⟨Itoa job.cacheFlmd, by simp [hres, Ldb.put, hk], ?_⟩
        have hname : fnameOf t = fnameOf t0 :=
          ldbKey_inj cfg plat _ _ (hk.trans hkey0)
        have htime := hcons t t0 (h.sub t ht) (h.sub t0 hseen0) hname
        have hrange : -((2 ^ (plat.intSize - 1) : Nat) : Int) ≤ flmdOf plat t0 ∧
            flmdOf plat t0 < ((2 ^ (plat.intSize - 1) : Nat) : Int) :=
          Atoi_range plat.intSize _
        rw [hflmd0, Atoi_Itoa plat.intSize (intSize_cases plat).1 (intSize_cases plat).2 _
          hrange.1 hrange.2, htime]
      · rcases h.entries t ht with ⟨v, hv, hval⟩ | ⟨j, hj, hjk, hjt⟩
        · left
          exact ⟨v, by simp [hres, Ldb.put, hk, hv], hval⟩
        · right
          refine ⟨j, ?_, hjk, hjt⟩
          apply List.mem_filter.mpr
          refine ⟨hj, ?_⟩
          have hne : j.launch ≠ n := by
            intro heq
            have hsame : j = job :=
              List.inj_on_of_nodup_map h.launches hj hmem (heq.trans hlaunch.symm)
            exact hk (by rw [← hjk, hsame])
          simpa using hne

theorem finishJobs_synced (w : World) (cfg : UploadConfig) (plat : Platform)
    (all seen : GoString → Prop)
    (hfio : ∀ sc k f, w.fioPutFile sc k f = true) (hput : ∀ k v, w.ldbPut k v = true)
    (hcons : ∀ t1 t2, all t1 → all t2 → fnameOf t1 = fnameOf t2 →
      flmdOf plat t1 = flmdOf plat t2)
    (ns : List Nat) :
    ∀ s : RunState, Synced cfg plat all seen s →
      Synced cfg plat all seen (finishJobs w cfg ns s) := by
  induction ns with
  | nil => intro s h; exact h
  | cons n ns ih =>
    intro s h
    exact ih _ (finishJob_synced w cfg plat all seen hfio hput hcons n s h)

theorem waitAll_synced (w : World) (cfg : UploadConfig) (plat : Platform)
    (all seen : GoString → Prop)
    (hfio : ∀ sc k f, w.fioPutFile sc k f = true) (hput : ∀ k v, w.ldbPut k v = true)
    (hcons : ∀ t1 t2, all t1 → all t2 → fnameOf t1 = fnameOf t2 →
      flmdOf plat t1 = flmdOf plat t2)
    (i : Nat) (s : RunState) (h : Synced cfg plat all seen s) :
    Synced cfg plat all seen (waitAll w cfg i s) := by
  unfold waitAll
  exact finishJobs_synced w cfg plat all seen hfio hput hcons _ _
    (finishJobs_synced w cfg plat all seen hfio hput hcons _ _ h)

theorem synced_of_same (cfg : UploadConfig) (plat : Platform) (all seen : GoString → Prop)
    (s s1 : RunState) (h : Synced cfg plat all seen s) (hl : s1.ldb = s.ldb)
    (hi : s1.inFlight = s.inFlight) (hu : s.upCounter ≤ s1.upCounter) :
    Synced cfg plat all seen s1 := by
  refine ⟨h.sub, ?_, ?_, ?_, ?_⟩
  · rw [hi]; exact h.launches
  · intro j hj
    rw [hi] at hj
    exact le_trans (h.bound j hj) hu
  · intro j hj
    rw [hi] at hj
    exact h.jobs j hj
  · intro t ht
    rw [hl, hi]
    exact h.entries t ht

theorem synced_of_iff (cfg : UploadConfig) (plat : Platform) (all seen seen1 : GoString → Prop)
    (s : RunState) (h : Synced cfg plat all seen s) (hiff : ∀ t, seen1 t ↔ seen t) :
    Synced cfg plat all seen1 s := by
  refine ⟨fun t ht => h.sub t ((hiff t).mp ht), h.launches, h.bound, ?_, ?_⟩
  · intro j hj
    obtain ⟨hsize, t, ht, hk, hf⟩ := h.jobs j hj
    exact ⟨hsize, t, (hiff t).mpr ht, hk, hf⟩
  · intro t ht
    exact h.entries t ((hiff t).mp ht)

theorem throttle_inFlight_subset (w : World) (cfg : UploadConfig) (threadThreshold : Int)
    (i : Nat) (s : RunState) :
    ∀ j ∈ (throttle w cfg threadThreshold i s).inFlight, j ∈ s.inFlight := by
  intro j hj
  unfold throttle at hj
  split at hj
  · rw [waitAll_inFlight] at hj
    simp at hj
  · exact hj

theorem throttle_synced (w : World) (cfg : UploadConfig) (plat : Platform)
    (all seen : GoString → Prop)
    (hfio : ∀ sc k f, w.fioPutFile sc k f = true) (hput : ∀ k v, w.ldbPut k v = true)
    (hcons : ∀ t1 t2, all t1 → all t2 → fnameOf t1 = fnameOf t2 →
      flmdOf plat t1 = flmdOf plat t2)
    (threadThreshold : Int) (i : Nat) (s : RunState) (h : Synced cfg plat all seen s) :
    Synced cfg plat all seen (throttle w cfg threadThreshold i s) := by
  unfold throttle
  split
  · exact waitAll_synced w cfg plat all seen hfio hput hcons i s h
  · exact h

/-- One iteration that goes on to the next line keeps the invariant, the
line read being added to the entries read so far. -/
theorem scanLine_synced (w : World) (cfg : UploadConfig) (plat : Platform)
    (all seen : GoString → Prop)
    (hfio : ∀ sc k f, w.fioPutFile sc k f = true) (hput : ∀ k v, w.ldbPut k v = true)
    (hcons : ∀ t1 t2, all t1 → all t2 → fnameOf t1 = fnameOf t2 →
      flmdOf plat t1 = flmdOf plat t2)
    (hsmall : ∀ path size, w.stat path = some size → size ≤ PUT_THRESHOLD)
    (threadCount : Int) (i : Nat) (text : GoString) (s : RunState)
    (hall : isEntry text → all text) (h : Synced cfg plat all seen s)
    (hflow : (scanLine w cfg plat threadCount i text s).1 = .next) :
    Synced cfg plat all (fun t => seen t ∨ (t = text ∧ isEntry text))
      (scanLine w cfg plat threadCount i text s).2 := by
  rcases fields_cases text with h1 | h1 | ⟨item2, hget⟩
  · rw [scanLine_short w cfg plat threadCount i text s h1]
    have hne : ¬ isEntry text := by unfold isEntry; omega
    show Synced cfg plat all _
      { s with trace := s.trace ++ [Event.errCacheLine (TrimSpace text)] }
    refine synced_of_iff cfg plat all seen _ _
      (synced_of_same cfg plat all seen s _ h rfl rfl (le_refl _)) ?_
    intro t
    constructor
    · rintro (ht | ⟨_, he⟩)
      · exact ht
      · exact absurd he hne
    · exact Or.inl
  · rw [scanLine_two w cfg plat threadCount i text s h1] at hflow
    simp at hflow
  · have he : isEntry text := by
      obtain ⟨hlt, _⟩ := List.get?_eq_some.mp hget
      unfold isEntry
      omega
    cases hstat : w.stat (cacheFilePath cfg plat (fnameOf text)) with
    | none =>
      rw [scanLine_stat_error w cfg plat threadCount i text s he hstat] at hflow
      simp at hflow
    | some fsize =>
      rw [scanLine_of_entry w cfg plat threadCount i text s fsize he hstat] at hflow ⊢
      split_ifs at hflow ⊢ with hskip hzero
      · obtain ⟨hsome, hval⟩ := hskip
        obtain ⟨v, hv⟩ := Option.isSome_iff_exists.mp hsome
        refine ⟨?_, h.launches, h.bound, ?_, ?_⟩
        · rintro t (ht | ⟨rfl, _⟩)
          · exact h.sub t ht
          · exact hall he
        · intro j hj
          obtain ⟨hsize, t, ht, hk, hf⟩ := h.jobs j hj
          exact ⟨hsize, t, Or.inl ht, hk, hf⟩
        · rintro t (ht | ⟨rfl, _⟩)
          · exact h.entries t ht
          · left
            refine ⟨v, hv, ?_⟩
            rw [hval, hv]
            rfl
      · have h1 : Synced cfg plat all seen (s.announce (ldbKey cfg plat (fnameOf text))) :=
          synced_of_same cfg plat all seen s _ h rfl rfl (Nat.le_succ _)
        have h2 := throttle_synced w cfg plat all seen hfio hput hcons (threadCount + 1) i _ h1
        have hup := throttle_upCounter w cfg (threadCount + 1) i
          (s.announce (ldbKey cfg plat (fnameOf text)))
        have hold : ∀ j ∈ (throttle w cfg (threadCount + 1) i
            (s.announce (ldbKey cfg plat (fnameOf text)))).inFlight, j.launch ≤ s.upCounter :=
          fun j hj => h.bound j (throttle_inFlight_subset w cfg (threadCount + 1) i
            (s.announce (ldbKey cfg plat (fnameOf text))) j hj)
        refine ⟨?_, ?_, ?_, ?_, ?_⟩
        · rintro t (ht | ⟨rfl, _⟩)
          · exact h.sub t ht
          · exact hall he
        · show ((throttle w cfg (threadCount + 1) i _).inFlight ++ [_]).map _ |>.Nodup
          rw [List.map_append, List.map_singleton]
          apply List.Nodup.append h2.launches (List.nodup_singleton _)
          intro n hn1 hn2
          obtain ⟨j, hj, rfl⟩ := List.mem_map.mp hn1
          have := hold j hj
          simp at hn2
          omega
        · intro j hj
          have hj1 : j ∈ (throttle w cfg (threadCount + 1) i _).inFlight ++ [_] := hj
          show j.launch ≤ (throttle w cfg (threadCount + 1) i _).upCounter
          rw [hup]
          rcases List.mem_append.mp hj1 with hj2 | hj2
          · exact le_trans (hold j hj2) (Nat.le_succ _)
          · simp at hj2
            rw [hj2]
            exact le_refl _
        · intro j hj
          have hj1 : j ∈ (throttle w cfg (threadCount + 1) i _).inFlight ++ [_] := hj
          rcases List.mem_append.mp hj1 with hj2 | hj2
          · obtain ⟨hsize, t, ht, hk, hf⟩ := h2.jobs j hj2
            exact ⟨hsize, t, Or.inl ht, hk, hf⟩
          · simp at hj2
            rw [hj2]
            exact ⟨hsmall _ _ hstat, text, Or.inr ⟨rfl, he⟩, rfl, rfl⟩
        · rintro t (ht | ⟨rfl, _⟩)
          · rcases h2.entries t ht with hrec | ⟨j, hj, hk, hf⟩
            · exact Or.inl hrec
            · exact Or.inr ⟨j, List.mem_append_left _ hj, hk, hf⟩
          · right
            exact ⟨_, List.mem_append_right _ (List.mem_singleton_self _), rfl, rfl⟩

theorem scanLoop_synced (w : World) (cfg : UploadConfig) (plat : Platform)
    (all : GoString → Prop)
    (hfio : ∀ sc k f, w.fioPutFile sc k f = true) (hput : ∀ k v, w.ldbPut k v = true)
    (hcons : ∀ t1 t2, all t1 → all t2 → fnameOf t1 = fnameOf t2 →
      flmdOf plat t1 = flmdOf plat t2)
    (hsmall : ∀ path size, w.stat path = some size → size ≤ PUT_THRESHOLD)
    (threadCount : Int) (manifest : List GoString) :
    ∀ (seen : GoString → Prop) (i : Nat) (s : RunState),
      (∀ t ∈ manifest, isEntry t → all t) → Synced cfg plat all seen s →
      (scanLoop w cfg plat threadCount i manifest s).1 = .next →
      Synced cfg plat all (fun t => seen t ∨ (t ∈ manifest ∧ isEntry t))
        (scanLoop w cfg plat threadCount i manifest s).2 := by
  induction manifest with
  | nil =>
    intro seen i s _ h _
    exact synced_of_iff cfg plat all seen _ s h (by simp)
  | cons text rest ih =>
    intro seen i s hall h hflow
    have h0 := finishJobs_synced w cfg plat all seen hfio hput hcons (w.finished i) s h
    have hstep := scanLine_synced w cfg plat all seen hfio hput hcons hsmall threadCount i
      text _ (hall text (List.mem_cons_self _ _)) h0
    unfold scanLoop at hflow ⊢
    generalize scanLine w cfg plat threadCount i text (finishJobs w cfg (w.finished i) s)
      = r at hstep hflow
    obtain ⟨flow, s1⟩ := r
    cases flow with
    | next =>
      simp only at hflow ⊢
      have hrest := ih _ (i + 1) s1 (fun t ht => hall t (List.mem_cons_of_mem _ ht))
        (hstep rfl) hflow
      apply synced_of_iff cfg plat all _ _ _ hrest
      intro t
      simp only [List.mem_cons]
      constructor
      · rintro (ht | ⟨rfl | ht, he⟩)
        · exact Or.inl (Or.inl ht)
        · exact Or.inl (Or.inr ⟨rfl, he⟩)
        · exact Or.inr ⟨ht, he⟩
      · rintro ((ht | ⟨rfl, he⟩) | ⟨ht, he⟩)
        · exact Or.inl ht
        · exact Or.inr ⟨Or.inl rfl, he⟩
        · exact Or.inr ⟨Or.inr ht, he⟩
    | returned => simp at hflow
    | panicked => simp at hflow

/-- After a run that reaches `Upload done!`, in which every transfer and
every write to the store succeeds and no file is above the threshold, every
entry of the manifest has a record that reads as its modification time. -/
theorem all_recorded_after_run (w : World) (cfg : UploadConfig) (plat : Platform)
    (threadCount : Int) (manifest : List GoString) (ldb : Ldb)
    (hfio : ∀ sc k f, w.fioPutFile sc k f = true) (hput : ∀ k v, w.ldbPut k v = true)
    (hsmall : ∀ path size, w.stat path = some size → size ≤ PUT_THRESHOLD)
    (hcons : ∀ t1 t2, t1 ∈ manifest → t2 ∈ manifest → isEntry t1 → isEntry t2 →
      fnameOf t1 = fnameOf t2 → flmdOf plat t1 = flmdOf plat t2)
    (hdone : (QiniuUpload w cfg plat threadCount manifest ldb).1 = .next) :
    ∀ t ∈ manifest, isEntry t →
      ∃ v, storeAfter w cfg plat threadCount manifest ldb (ldbKey cfg plat (fnameOf t))
          = some v ∧ (Atoi plat.intSize v).1 = flmdOf plat t := by
  have hcons1 : ∀ t1 t2, (t1 ∈ manifest ∧ isEntry t1) → (t2 ∈ manifest ∧ isEntry t2) →
      fnameOf t1 = fnameOf t2 → flmdOf plat t1 = flmdOf plat t2 :=
    fun t1 t2 h1 h2 => hcons t1 t2 h1.1 h2.1 h1.2 h2.2
  have hinit : Synced cfg plat (fun t => t ∈ manifest ∧ isEntry t) (fun _ => False)
      (RunState.init ldb) :=
    ⟨fun _ h => h.elim, by simp [RunState.init], by simp [RunState.init],
      by simp [RunState.init], fun _ h => h.elim⟩
  have hloop := scanLoop_synced w cfg plat _ hfio hput hcons1 hsmall threadCount manifest
    _ 0 _ (fun t ht he => ⟨ht, he⟩) hinit
  unfold storeAfter
  unfold QiniuUpload at hdone ⊢
  generalize scanLoop w cfg plat threadCount 0 manifest (RunState.init ldb) = r
    at hloop hdone
  obtain ⟨flow, s1⟩ := r
  cases flow with
  | next =>
    simp only at hdone ⊢
    have hfinal := waitAll_synced w cfg plat _ _ hfio hput hcons1 manifest.length s1
      (hloop rfl)
    intro t ht he
    rcases hfinal.entries t (Or.inr ⟨ht, he⟩) with hrec | ⟨j, hj, _, _⟩
    · exact hrec
    · rw [waitAll_inFlight] at hj
      simp at hj
  | returned => simp at hdone
  | panicked => simp at hdone

theorem finishJobs_idle (w : World) (cfg : UploadConfig) (ns : List Nat) :
    ∀ s : RunState, s.inFlight = [] → finishJobs w cfg ns s = s := by
  induction ns with
  | nil => intro s _; rfl
  | cons n ns ih =>
    intro s h
    have hstep : finishJob w cfg n s = s := by
      unfold finishJob
      rw [h]
      rfl
    show finishJobs w cfg ns (finishJob w cfg n s) = s
    rw [hstep]
    exact ih s h

theorem scanLine_idle (w : World) (cfg : UploadConfig) (plat : Platform)
    (threadCount : Int) (i : Nat) (text : GoString) (s : RunState)
    (hrec : isEntry text → ∃ v, s.ldb (ldbKey cfg plat (fnameOf text)) = some v ∧
      (Atoi plat.intSize v).1 = flmdOf plat text) :
    (scanLine w cfg plat threadCount i text s).2.ldb = s.ldb ∧
    (scanLine w cfg plat threadCount i text s).2.inFlight = s.inFlight ∧
    (scanLine w cfg plat threadCount i text s).2.upCounter = s.upCounter := by
  rcases fields_cases text with h1 | h1 | ⟨item2, hget⟩
  · rw [scanLine_short w cfg plat threadCount i text s h1]
    exact ⟨rfl, rfl, rfl⟩
  · rw [scanLine_two w cfg plat threadCount i text s h1]
    exact ⟨rfl, rfl, rfl⟩
  · have he : isEntry text := by
      obtain ⟨hlt, _⟩ := List.get?_eq_some.mp hget
      unfold isEntry
      omega
    cases hstat : w.stat (cacheFilePath cfg plat (fnameOf text)) with
    | none =>
      rw [scanLine_stat_error w cfg plat threadCount i text s he hstat]
      exact ⟨rfl, rfl, rfl⟩
    | some fsize =>
      obtain ⟨v, hv, hval⟩ := hrec he
      rw [recorded_time_is_skipped w cfg plat threadCount i text s fsize v he hstat hv hval]
      exact ⟨rfl, rfl, rfl⟩

theorem scanLoop_idle (w : World) (cfg : UploadConfig) (plat : Platform)
    (threadCount : Int) (store : Ldb) (manifest : List GoString)
    (hrec : ∀ t ∈ manifest, isEntry t →
      ∃ v, store (ldbKey cfg plat (fnameOf t)) = some v ∧
        (Atoi plat.intSize v).1 = flmdOf plat t) :
    ∀ (i : Nat) (s : RunState), s.ldb = store → s.inFlight = [] → s.upCounter = 0 →
      (scanLoop w cfg plat threadCount i manifest s).2.ldb = store ∧
      (scanLoop w cfg plat threadCount i manifest s).2.inFlight = [] ∧
      (scanLoop w cfg plat threadCount i manifest s).2.upCounter = 0 := by
  induction manifest with
  | nil => intro i s h1 h2 h3; exact ⟨h1, h2, h3⟩
  | cons text rest ih =>
    intro i s h1 h2 h3
    have hstep := scanLine_idle w cfg plat threadCount i text s
      (fun he => by rw [h1]; exact hrec text (List.mem_cons_self _ _) he)
    unfold scanLoop
    rw [finishJobs_idle w cfg _ s h2]
    generalize scanLine w cfg plat threadCount i text s = r at hstep
    obtain ⟨flow, s1⟩ := r
    simp only at hstep
    obtain ⟨e1, e2, e3⟩ := hstep
    cases flow with
    | next =>
      exact ih (fun t ht => hrec t (List.mem_cons_of_mem _ ht)) (i + 1) s1
        (e1.trans h1) (e2.trans h2) (e3.trans h3)
    | returned => exact ⟨e1.trans h1, e2.trans h2, e3.trans h3⟩
    | panicked => exact ⟨e1.trans h1, e2.trans h2, e3.trans h3⟩

/-- The part of C1 the code does keep: after a run that reaches `Upload
done!`, in which every transfer and every write to the store succeeds, over
a manifest that lists no path with two different times and whose files are
all at most `PUT_THRESHOLD` bytes, a second run over the same manifest and
the store the first run left dispatches no upload job and leaves the store
as it is, whatever its thread count and its environment. -/
theorem idempotent_without_large_files (w w2 : World) (cfg : UploadConfig)
    (plat : Platform) (threadCount threadCount2 : Int) (manifest : List GoString)
    (ldb : Ldb)
    (hfio : ∀ sc k f, w.fioPutFile sc k f = true) (hput : ∀ k v, w.ldbPut k v = true)
    (hsmall : ∀ path size, w.stat path = some size → size ≤ PUT_THRESHOLD)
    (hcons : ∀ t1 t2, t1 ∈ manifest → t2 ∈ manifest → isEntry t1 → isEntry t2 →
      fnameOf t1 = fnameOf t2 → flmdOf plat t1 = flmdOf plat t2)
    (hdone : (QiniuUpload w cfg plat threadCount manifest ldb).1 = .next) :
    jobsDispatched w2 cfg plat threadCount2 manifest
        (storeAfter w cfg plat threadCount manifest ldb) = 0 ∧
    storeAfter w2 cfg plat threadCount2 manifest
        (storeAfter w cfg plat threadCount manifest ldb)
      = storeAfter w cfg plat threadCount manifest ldb := by
  have hrec := all_recorded_after_run w cfg plat threadCount manifest ldb hfio hput hsmall
    hcons hdone
  have hloop := scanLoop_idle w2 cfg plat threadCount2
    (storeAfter w cfg plat threadCount manifest ldb) manifest hrec 0
    (RunState.init (storeAfter w cfg plat threadCount manifest ldb)) rfl rfl rfl
  generalize storeAfter w cfg plat threadCount manifest ldb = store at hloop ⊢
  unfold jobsDispatched storeAfter QiniuUpload
  generalize scanLoop w2 cfg plat threadCount2 0 manifest (RunState.init store) = r at hloop
  obtain ⟨flow, s1⟩ := r
  simp only at hloop
  obtain ⟨e1, e2, e3⟩ := hloop
  cases flow with
  | next =>
    simp only [waitAll]
    rw [finishJobs_idle w2 cfg _ s1 e2, e2]
    exact ⟨e3, e1⟩
  | returned => exact ⟨e3, e1⟩
  | panicked => exact ⟨e3, e1⟩

/-! ## Malformed lines -/

/-- A line of three fields or more whose local file can be statted is
processed as an entry, with the modification time `strconv.Atoi` returns for
its third field, whatever that field holds: it is skipped when the store
holds a record that reads as that time, and otherwise a goroutine carrying
that time is launched for it, after the throttle. -/
theorem scanLine_processes_entry (w : World) (cfg : UploadConfig) (plat : Platform)
    (threadCount : Int) (i : Nat) (text : GoString) (s : RunState)
    (item2 : GoString) (fsize : Int)
    (hget : (Split (TrimSpace text) '\t').get? 2 = some item2)
    (hstat : w.stat (cacheFilePath cfg plat (fnameOf text)) = some fsize)
    (htc : threadCount + 1 ≠ 0) :
    scanLine w cfg plat threadCount i text s =
      if (s.ldb (ldbKey cfg plat (fnameOf text))).isSome ∧
          (Atoi plat.intSize item2).1
            = (Atoi plat.intSize ((s.ldb (ldbKey cfg plat (fnameOf text))).getD [])).1 then
        (.next, { s with currentFileCount := s.currentFileCount + 1 })
      else
        (.next,
          (throttle w cfg (threadCount + 1) i
            (s.announce (ldbKey cfg plat (fnameOf text)))).launch
            ⟨s.upCounter + 1, uploadFileKey cfg plat (fnameOf text),
              cacheFilePath cfg plat (fnameOf text), ldbKey cfg plat (fnameOf text), fsize,
              (Atoi plat.intSize item2).1⟩) := by
  rw [scanLine_entry w cfg plat threadCount i text s item2 fsize hget hstat]
  simp only [fnameOf, htc, if_false]

/-- C8, amended: a manifest line that, once trimmed, has fewer than two
tab-separated fields is reported and skipped, with no job launched and the
store untouched, and the loop goes on with the next line; a line of three
fields or more is never reported as malformed, whatever its third field: when
its local file can be statted (and the thread count is not -1) it is
processed as an entry with the time `strconv.Atoi` returns for its third
field, and a third field that `strconv.Atoi` rejects as no number is read as
modification time 0: the entry is skipped when the store holds a record that
reads as 0, and otherwise a goroutine carrying time 0 is launched for it. -/
theorem short_line_reported_and_skipped (w : World) (cfg : UploadConfig) (plat : Platform)
    (threadCount : Int) (i : Nat) (text : GoString) (s : RunState) :
    ((Split (TrimSpace text) '\t').length < 2 →
      scanLine w cfg plat threadCount i text s
        = (.next, { s with trace := s.trace ++ [.errCacheLine (TrimSpace text)] }) ∧
      ∀ rest, scanLoop w cfg plat threadCount i (text :: rest) s
        = scanLoop w cfg plat threadCount (i + 1) rest
            { finishJobs w cfg (w.finished i) s with
              trace := (finishJobs w cfg (w.finished i) s).trace
                ++ [.errCacheLine (TrimSpace text)] }) ∧
    (3 ≤ (Split (TrimSpace text) '\t').length →
      ∀ l, Event.errCacheLine l ∈ (scanLine w cfg plat threadCount i text s).2.trace →
        Event.errCacheLine l ∈ s.trace) ∧
    (∀ item, (Atoi plat.intSize item).2 = .errSyntax → (Atoi plat.intSize item).1 = 0) ∧
    (∀ item2 fsize, (Split (TrimSpace text) '\t').get? 2 = some item2 →
      w.stat (cacheFilePath cfg plat (fnameOf text)) = some fsize →
      threadCount + 1 ≠ 0 →
      scanLine w cfg plat threadCount i text s =
        if (s.ldb (ldbKey cfg plat (fnameOf text))).isSome ∧
            (Atoi plat.intSize item2).1
              = (Atoi plat.intSize ((s.ldb (ldbKey cfg plat (fnameOf text))).getD [])).1 then
          (.next, { s with currentFileCount := s.currentFileCount + 1 })
        else
          (.next,
            (throttle w cfg (threadCount + 1) i
              (s.announce (ldbKey cfg plat (fnameOf text)))).launch
              ⟨s.upCounter + 1, uploadFileKey cfg plat (fnameOf text),
                cacheFilePath cfg plat (fnameOf text), ldbKey cfg plat (fnameOf text), fsize,
                (Atoi plat.intSize item2).1⟩)) ∧
    (∀ item2 fsize, (Split (TrimSpace text) '\t').get? 2 = some item2 →
      (Atoi plat.intSize item2).2 = .errSyntax →
      w.stat (cacheFilePath cfg plat (fnameOf text)) = some fsize →
      threadCount + 1 ≠ 0 →
      scanLine w cfg plat threadCount i text s =
        if (s.ldb (ldbKey cfg plat (fnameOf text))).isSome ∧
            0 = (Atoi plat.intSize ((s.ldb (ldbKey cfg plat (fnameOf text))).getD [])).1 then
          (.next, { s with currentFileCount := s.currentFileCount + 1 })
        else
          (.next,
            (throttle w cfg (threadCount + 1) i
              (s.announce (ldbKey cfg plat (fnameOf text)))).launch
              ⟨s.upCounter + 1, uploadFileKey cfg plat (fnameOf text),
                cacheFilePath cfg plat (fnameOf text), ldbKey cfg plat (fnameOf text), fsize,
                0⟩)) := by
  refine ⟨?_, ?_, fun item h => Atoi_syntax_error _ item h, ?_, ?_⟩
  · intro h
    refine ⟨scanLine_short w cfg plat threadCount i text s h, ?_⟩
    intro rest
    conv_lhs => unfold scanLoop
    rw [scanLine_short w cfg plat threadCount i text _ h]
  · intro h l hl
    obtain ⟨item2, hget⟩ : ∃ item2, (Split (TrimSpace text) '\t').get? 2 = some item2 :=
      ⟨_, List.get?_eq_get (by omega)⟩
    cases hstat : w.stat (cacheFilePath cfg plat ((Split (TrimSpace text) '\t').headD [])) with
    | none =>
      rw [scanLine_stat_error w cfg plat threadCount i text s h hstat] at hl
      simpa using hl
    | some fsize =>
      rw [scanLine_entry w cfg plat threadCount i text s item2 fsize hget hstat] at hl
      split_ifs at hl
      · exact hl
      · simpa [RunState.announce] using hl
      · obtain ⟨evs, htr, hevs⟩ := throttle_trace w cfg (threadCount + 1) i
          (s.announce (ldbKey cfg plat ((Split (TrimSpace text) '\t').headD [])))
        have hl1 : Event.errCacheLine l ∈ (throttle w cfg (threadCount + 1) i
            (s.announce (ldbKey cfg plat ((Split (TrimSpace text) '\t').headD [])))).trace := hl
        rw [htr] at hl1
        rcases List.mem_append.mp hl1 with h1 | h1
        · simpa [RunState.announce] using h1
        · have := hevs _ h1
          simp [Event.fromScanner] at this
  · intro item2 fsize hget hstat htc
    exact scanLine_processes_entry w cfg plat threadCount i text s item2 fsize hget hstat htc
  · intro item2 fsize hget herr hstat htc
    rw [scanLine_processes_entry w cfg plat threadCount i text s item2 fsize hget hstat htc,
      Atoi_syntax_error plat.intSize item2 herr]

/-- C8, amended, at the line `junk` followed by a well-formed line, and at a
line whose third field is `abc`: the first is reported and skipped and the
line after it is processed; the last is processed as an entry of
modification time 0, for which a goroutine is launched. -/
theorem short_line_reported_and_skipped_witness :
    (Split (TrimSpace "  junk ".toList) '\t').length < 2 ∧
    scanLine twoFiles plainConfig linux64 1 0 "  junk ".toList (RunState.init Ldb.empty)
      = (.next, { RunState.init Ldb.empty with trace := [.errCacheLine "junk".toList] }) ∧
    eventsOf twoFiles plainConfig linux64 1
        ["  junk ".toList, "a.jpg\t10\t100".toList] Ldb.empty
      = [.errCacheLine "junk".toList,
         .uploading "/src/a.jpg => a.jpg".toList 1,
         .fioPutFile "bkt".toList "a.jpg".toList "/src/a.jpg".toList,
         .ldbPut "/src/a.jpg => a.jpg".toList "100".toList] ∧
    (Atoi linux64.intSize "abc".toList).2 = .errSyntax ∧
    (scanLine twoFiles plainConfig linux64 1 0 "a.jpg\t10\tabc".toList
        (RunState.init Ldb.empty)).1 = .next ∧
    (scanLine twoFiles plainConfig linux64 1 0 "a.jpg\t10\tabc".toList
        (RunState.init Ldb.empty)).2.inFlight
      = [⟨1, "a.jpg".toList, "/src/a.jpg".toList, "/src/a.jpg => a.jpg".toList, 10, 0⟩] :=
  ⟨by decide,
   ((short_line_reported_and_skipped twoFiles plainConfig linux64 1 0 "  junk ".toList
      (RunState.init Ldb.empty)).1 (by decide)).1,
   by decide,
   by decide,
   by
    rw [(short_line_reported_and_skipped twoFiles plainConfig linux64 1 0
      "a.jpg\t10\tabc".toList (RunState.init Ldb.empty)).2.2.2.2 "abc".toList 10
      (by decide) (by decide) (by decide) (by decide)]
    decide,
   by
    rw [(short_line_reported_and_skipped twoFiles plainConfig linux64 1 0
      "a.jpg\t10\tabc".toList (RunState.init Ldb.empty)).2.2.2.2 "abc".toList 10
      (by decide) (by decide) (by decide) (by decide)]
    decide⟩

/-! ## The throttle -/

theorem succ_mod_of_ne_zero (c t : Nat) (ht : 0 < t) (h : (c + 1) % t ≠ 0) :
    (c + 1) % t = c % t + 1 := by
  have hr : c % t < t := Nat.mod_lt _ ht
  have hc : c + 1 = t * (c / t) + (c % t + 1) := by
    have := Nat.div_add_mod c t
    omega
  by_cases hlt : c % t + 1 < t
  · rw [hc, Nat.mul_add_mod, Nat.mod_eq_of_lt hlt]
  · exfalso
    apply h
    have hEq : c % t + 1 = t := by omega
    rw [hc, hEq, Nat.mul_add_mod, Nat.mod_self]

/-- One iteration keeps the number of goroutines in flight at most one above
`upCounter` modulo `threadCount + 1`. -/
theorem scanLine_inFlight (w : World) (cfg : UploadConfig) (plat : Platform)
    (threadCount : Int) (i : Nat) (text : GoString) (s : RunState) (t : Nat) (ht : 0 < t)
    (htc : threadCount + 1 = (t : Int))
    (hinv : s.inFlight.length ≤ s.upCounter % t + 1) :
    (scanLine w cfg plat threadCount i text s).2.inFlight.length
      ≤ (scanLine w cfg plat threadCount i text s).2.upCounter % t + 1 := by
  rcases fields_cases text with h | h | ⟨item2, hget⟩
  · rw [scanLine_short w cfg plat threadCount i text s h]
    exact hinv
  · rw [scanLine_two w cfg plat threadCount i text s h]
    exact hinv
  · cases hstat : w.stat (cacheFilePath cfg plat ((Split (TrimSpace text) '\t').headD [])) with
    | none =>
      have h3 : 3 ≤ (Split (TrimSpace text) '\t').length := by
        obtain ⟨hlt, _⟩ := List.get?_eq_some.mp hget
        omega
      rw [scanLine_stat_error w cfg plat threadCount i text s h3 hstat]
      exact hinv
    | some fsize =>
      rw [scanLine_entry w cfg plat threadCount i text s item2 fsize hget hstat]
      have hne : ¬ threadCount + 1 = 0 := by omega
      split_ifs with hskip
      · exact hinv
      · simp only [RunState.launch, throttle, htc]
        have hmod : ((s.announce (ldbKey cfg plat
              ((Split (TrimSpace text) '\t').headD []))).upCounter : Int).tmod (t : Int) = 0
            ↔ (s.upCounter + 1) % t = 0 := by
          show ((s.upCounter + 1 : Nat) : Int).tmod (t : Int) = 0 ↔ _
          rw [← Int.ofNat_tmod]
          exact Int.natCast_eq_zero
        by_cases hw : (s.upCounter + 1) % t = 0
        · rw [if_pos (hmod.mpr hw)]
          simp only [List.length_append, List.length_singleton, waitAll_inFlight,
            List.length_nil]
          omega
        · rw [if_neg (fun h => hw (hmod.mp h))]
          show (s.inFlight ++ _).length ≤ (s.upCounter + 1) % t + 1
          rw [succ_mod_of_ne_zero _ _ ht hw]
          simp only [List.length_append, List.length_singleton]
          omega

theorem finishJobs_inFlight_le (w : World) (cfg : UploadConfig) (ns : List Nat)
    (s : RunState) : (finishJobs w cfg ns s).inFlight.length ≤ s.inFlight.length := by
  rw [finishJobs_inFlight]
  exact List.length_filter_le _ _

theorem scanLoop_inFlight (w : World) (cfg : UploadConfig) (plat : Platform)
    (threadCount : Int) (t : Nat) (ht : 0 < t) (htc : threadCount + 1 = (t : Int))
    (manifest : List GoString) :
    ∀ (i : Nat) (s : RunState), s.inFlight.length ≤ s.upCounter % t + 1 →
      (scanLoop w cfg plat threadCount i manifest s).2.inFlight.length
        ≤ (scanLoop w cfg plat threadCount i manifest s).2.upCounter % t + 1 := by
  induction manifest with
  | nil => intro i s h; exact h
  | cons text rest ih =>
    intro i s h
    have hfin : (finishJobs w cfg (w.finished i) s).inFlight.length
        ≤ (finishJobs w cfg (w.finished i) s).upCounter % t + 1 := by
      rw [(finishJobs_upCounter w cfg _ s).1]
      exact le_trans (finishJobs_inFlight_le w cfg _ s) h
    have hstep := scanLine_inFlight w cfg plat threadCount i text _ t ht htc hfin
    unfold scanLoop
    generalize scanLine w cfg plat threadCount i text (finishJobs w cfg (w.finished i) s)
      = r at hstep
    obtain ⟨flow, s1⟩ := r
    cases flow with
    | next => exact ih (i + 1) s1 hstep
    | returned => exact hstep
    | panicked => exact hstep

/-- What the throttle does bound: with `threadCount` at least 1, at most
`threadCount + 1` goroutines are in flight when the loop stops, whatever the
manifest (so also after each line of a longer one). -/
theorem inFlight_le_threadCount_succ (w : World) (cfg : UploadConfig) (plat : Platform)
    (threadCount : Int) (h : 1 ≤ threadCount) (manifest : List GoString) (ldb : Ldb) :
    ((scanLoop w cfg plat threadCount 0 manifest (RunState.init ldb)).2.inFlight.length : Int)
      ≤ threadCount + 1 := by
  have htc : threadCount + 1 = ((threadCount + 1).toNat : Int) := by omega
  have ht : 0 < (threadCount + 1).toNat := by omega
  have hb := scanLoop_inFlight w cfg plat threadCount _ ht htc manifest 0 (RunState.init ldb)
    (by simp [RunState.init])
  have hlt := Nat.mod_lt (scanLoop w cfg plat threadCount 0 manifest
    (RunState.init ldb)).2.upCounter ht
  omega

/-! ## What stops the loop -/

theorem scanLine_goes_on (w : World) (cfg : UploadConfig) (plat : Platform)
    (threadCount : Int) (htc : threadCount + 1 ≠ 0) (i : Nat) (text : GoString)
    (s : RunState)
    (hline : (Split (TrimSpace text) '\t').length < 2 ∨
      (3 ≤ (Split (TrimSpace text) '\t').length ∧
        (w.stat (cacheFilePath cfg plat ((Split (TrimSpace text) '\t').headD []))).isSome)) :
    (scanLine w cfg plat threadCount i text s).1 = .next := by
  rcases hline with h | ⟨h, hstat⟩
  · rw [scanLine_short w cfg plat threadCount i text s h]
  · obtain ⟨item2, hget⟩ : ∃ item2, (Split (TrimSpace text) '\t').get? 2 = some item2 :=
      ⟨_, List.get?_eq_get (by omega)⟩
    obtain ⟨fsize, hsize⟩ := Option.isSome_iff_exists.mp hstat
    rw [scanLine_entry w cfg plat threadCount i text s item2 fsize hget hsize]
    split_ifs <;> rfl

theorem scanLoop_goes_on (w : World) (cfg : UploadConfig) (plat : Platform)
    (threadCount : Int) (htc : threadCount + 1 ≠ 0) (manifest : List GoString)
    (hlines : ∀ text ∈ manifest, (Split (TrimSpace text) '\t').length < 2 ∨
      (3 ≤ (Split (TrimSpace text) '\t').length ∧
        (w.stat (cacheFilePath cfg plat ((Split (TrimSpace text) '\t').headD []))).isSome)) :
    ∀ (i : Nat) (s : RunState), (scanLoop w cfg plat threadCount i manifest s).1 = .next := by
  induction manifest with
  | nil => intro i s; rfl
  | cons text rest ih =>
    intro i s
    have hstep := scanLine_goes_on w cfg plat threadCount htc i text
      (finishJobs w cfg (w.finished i) s) (hlines text (List.mem_cons_self _ _))
    unfold scanLoop
    generalize scanLine w cfg plat threadCount i text (finishJobs w cfg (w.finished i) s)
      = r at hstep
    obtain ⟨flow, s1⟩ := r
    simp only at hstep
    subst hstep
    exact ih (fun t ht => hlines t (List.mem_cons_of_mem _ ht)) (i + 1) s1

/-- The part of C9 the code does keep: when every line has fewer than two
fields or at least three with a local file that can be statted, the run
reaches the end of the manifest and `Upload done!`, whatever the transfers
and the writes to the store return. -/
theorem transfer_and_commit_errors_do_not_stop (w : World) (cfg : UploadConfig)
    (plat : Platform) (threadCount : Int) (htc : threadCount + 1 ≠ 0)
    (manifest : List GoString) (ldb : Ldb)
    (hlines : ∀ text ∈ manifest, (Split (TrimSpace text) '\t').length < 2 ∨
      (3 ≤ (Split (TrimSpace text) '\t').length ∧
        (w.stat (cacheFilePath cfg plat ((Split (TrimSpace text) '\t').headD []))).isSome)) :
    (QiniuUpload w cfg plat threadCount manifest ldb).1 = .next := by
  have h := scanLoop_goes_on w cfg plat threadCount htc manifest hlines 0 (RunState.init ldb)
  unfold QiniuUpload
  generalize scanLoop w cfg plat threadCount 0 manifest (RunState.init ldb) = r at h
  obtain ⟨flow, s1⟩ := r
  simp only at h
  subst h
  rfl

/-! ## A run in which every transfer fails -/

theorem finishJob_offline (w : World) (cfg : UploadConfig)
    (hrio : ∀ sc k f, w.rioPutFile sc k f = false)
    (hfio : ∀ sc k f, w.fioPutFile sc k f = false) (n : Nat) (s : RunState) :
    (finishJob w cfg n s).ldb = s.ldb := by
  unfold finishJob
  split
  · rfl
  · rename_i job _
    show (uploadJob w cfg job s.ldb).1 = s.ldb
    rw [uploadJob_cases]
    simp only [hrio, hfio, Bool.false_eq_true, if_false]
    split <;> rfl

theorem finishJobs_offline (w : World) (cfg : UploadConfig)
    (hrio : ∀ sc k f, w.rioPutFile sc k f = false)
    (hfio : ∀ sc k f, w.fioPutFile sc k f = false) (ns : List Nat) :
    ∀ s : RunState, (finishJobs w cfg ns s).ldb = s.ldb := by
  induction ns with
  | nil => intro s; rfl
  | cons n ns ih =>
    intro s
    show (finishJobs w cfg ns (finishJob w cfg n s)).ldb = s.ldb
    rw [ih, finishJob_offline w cfg hrio hfio]

theorem waitAll_offline (w : World) (cfg : UploadConfig)
    (hrio : ∀ sc k f, w.rioPutFile sc k f = false)
    (hfio : ∀ sc k f, w.fioPutFile sc k f = false) (i : Nat) (s : RunState) :
    (waitAll w cfg i s).ldb = s.ldb := by
  unfold waitAll
  rw [finishJobs_offline w cfg hrio hfio, finishJobs_offline w cfg hrio hfio]

theorem scanLine_offline (w : World) (cfg : UploadConfig) (plat : Platform)
    (hrio : ∀ sc k f, w.rioPutFile sc k f = false)
    (hfio : ∀ sc k f, w.fioPutFile sc k f = false)
    (threadCount : Int) (i : Nat) (text : GoString) (s : RunState) :
    (scanLine w cfg plat threadCount i text s).2.ldb = s.ldb := by
  rcases fields_cases text with h1 | h1 | ⟨item2, hget⟩
  · rw [scanLine_short w cfg plat threadCount i text s h1]
  · rw [scanLine_two w cfg plat threadCount i text s h1]
  · have he : isEntry text := by
      obtain ⟨hlt, _⟩ := List.get?_eq_some.mp hget
      unfold isEntry
      omega
    cases hstat : w.stat (cacheFilePath cfg plat (fnameOf text)) with
    | none => rw [scanLine_stat_error w cfg plat threadCount i text s he hstat]
    | some fsize =>
      rw [scanLine_of_entry w cfg plat threadCount i text s fsize he hstat]
      split_ifs
      · rfl
      · rfl
      · show (throttle w cfg (threadCount + 1) i _).ldb = s.ldb
        unfold throttle
        split
        · rw [waitAll_offline w cfg hrio hfio]
          rfl
        · rfl

theorem scanLoop_offline (w : World) (cfg : UploadConfig) (plat : Platform)
    (hrio : ∀ sc k f, w.rioPutFile sc k f = false)
    (hfio : ∀ sc k f, w.fioPutFile sc k f = false)
    (threadCount : Int) (manifest : List GoString) :
    ∀ (i : Nat) (s : RunState),
      (scanLoop w cfg plat threadCount i manifest s).2.ldb = s.ldb := by
  induction manifest with
  | nil => intro i s; rfl
  | cons text rest ih =>
    intro i s
    have hstep := scanLine_offline w cfg plat hrio hfio threadCount i text
      (finishJobs w cfg (w.finished i) s)
    rw [finishJobs_offline w cfg hrio hfio] at hstep
    unfold scanLoop
    generalize scanLine w cfg plat threadCount i text (finishJobs w cfg (w.finished i) s)
      = r at hstep
    obtain ⟨flow, s1⟩ := r
    cases flow with
    | next => exact (ih (i + 1) s1).trans hstep
    | returned => exact hstep
    | panicked => exact hstep

/-- Commit on success only, over a whole run: when every transfer returns an
error, the run leaves the store exactly as it found it, whatever the
manifest, the thread count and the schedule of the goroutines. -/
theorem failed_transfers_leave_the_store (w : World) (cfg : UploadConfig)
    (plat : Platform) (threadCount : Int) (manifest : List GoString) (ldb : Ldb)
    (hrio : ∀ sc k f, w.rioPutFile sc k f = false)
    (hfio : ∀ sc k f, w.fioPutFile sc k f = false) :
    storeAfter w cfg plat threadCount manifest ldb = ldb := by
  have hloop := scanLoop_offline w cfg plat hrio hfio threadCount manifest 0
    (RunState.init ldb)
  unfold storeAfter QiniuUpload
  generalize scanLoop w cfg plat threadCount 0 manifest (RunState.init ldb) = r at hloop
  obtain ⟨flow, s1⟩ := r
  cases flow with
  | next =>
    show (waitAll w cfg manifest.length s1).ldb = ldb
    rw [waitAll_offline w cfg hrio hfio]
    exact hloop
  | returned => exact hloop
  | panicked => exact hloop

/-! ## Worked runs -/

/-- C1 fails on the code at a file above the threshold: after a first run in
which both transfers and both commits succeed, the second run over the same
manifest skips `a.jpg` and dispatches one upload job, for `big.bin`, whose
record holds `Y` and not the modification time. The simple and the resumable
branch commit different values; this is the defect of C3 and C4 too. -/
theorem second_run_uploads_big_file_again :
    eventsOf twoFiles plainConfig linux64 1
        ["big.bin\t104857601\t100".toList, "a.jpg\t10\t100".toList] Ldb.empty
      = [.uploading "/src/big.bin => big.bin".toList 1,
         .uploading "/src/a.jpg => a.jpg".toList 2,
         .rioPutFile "bkt".toList "big.bin".toList "/src/big.bin".toList,
         .ldbPut "/src/big.bin => big.bin".toList "Y".toList,
         .fioPutFile "bkt".toList "a.jpg".toList "/src/a.jpg".toList,
         .ldbPut "/src/a.jpg => a.jpg".toList "100".toList] ∧
    jobsDispatched twoFiles plainConfig linux64 1
        ["big.bin\t104857601\t100".toList, "a.jpg\t10\t100".toList]
        (storeAfter twoFiles plainConfig linux64 1
          ["big.bin\t104857601\t100".toList, "a.jpg\t10\t100".toList] Ldb.empty)
      = 1 ∧
    eventsOf twoFiles plainConfig linux64 1
        ["big.bin\t104857601\t100".toList, "a.jpg\t10\t100".toList]
        (storeAfter twoFiles plainConfig linux64 1
          ["big.bin\t104857601\t100".toList, "a.jpg\t10\t100".toList] Ldb.empty)
      = [.uploading "/src/big.bin => big.bin".toList 1,
         .rioPutFile "bkt".toList "big.bin".toList "/src/big.bin".toList,
         .ldbPut "/src/big.bin => big.bin".toList "Y".toList] := by
  decide

/-- C3 fails on the code at a file above the threshold: after a successful
resumable transfer of `big.bin`, of modification time 100, the record holds
`Y`, while the record of `a.jpg`, sent by the simple transfer, holds `100`.
One defect with C1 and C4. -/
theorem resumable_commit_writes_Y :
    storeAfter twoFiles plainConfig linux64 1
        ["big.bin\t104857601\t100".toList, "a.jpg\t10\t100".toList] Ldb.empty
        (ldbKey plainConfig linux64 "big.bin".toList) = some "Y".toList ∧
    storeAfter twoFiles plainConfig linux64 1
        ["big.bin\t104857601\t100".toList, "a.jpg\t10\t100".toList] Ldb.empty
        (ldbKey plainConfig linux64 "a.jpg".toList) = some "100".toList ∧
    Itoa 100 = "100".toList := by
  decide

/-- C4 fails on the code at a file above the threshold: `big.bin` and `a.jpg`
are synced at modification time -1, then listed with modification time 0; the
next run uploads `a.jpg` again and skips `big.bin`, whose record `Y` reads as
0. One defect with C1 and C3. -/
theorem newer_big_file_skipped :
    jobsDispatched twoFiles plainConfig linux64 1
        ["big.bin\t104857601\t0".toList, "a.jpg\t10\t0".toList]
        (storeAfter twoFiles plainConfig linux64 1
          ["big.bin\t104857601\t-1".toList, "a.jpg\t10\t-1".toList] Ldb.empty)
      = 1 ∧
    eventsOf twoFiles plainConfig linux64 1
        ["big.bin\t104857601\t0".toList, "a.jpg\t10\t0".toList]
        (storeAfter twoFiles plainConfig linux64 1
          ["big.bin\t104857601\t-1".toList, "a.jpg\t10\t-1".toList] Ldb.empty)
      = [.uploading "/src/a.jpg => a.jpg".toList 2,
         .fioPutFile "bkt".toList "a.jpg".toList "/src/a.jpg".toList,
         .ldbPut "/src/a.jpg => a.jpg".toList "0".toList] ∧
    (Atoi 64 "Y".toList).1 = 0 := by
  decide

/-- C5 fails on the code with one upload thread and three jobs: the scanner
waits before the second launch and not before the third, so that when the
loop ends the second and the third goroutine are both in flight. -/
theorem two_in_flight_with_one_thread :
    (scanLoop threeFiles plainConfig linux64 1 0
        ["a\t1\t5".toList, "b\t1\t5".toList, "c\t1\t5".toList]
        (RunState.init Ldb.empty)).1 = .next ∧
    (scanLoop threeFiles plainConfig linux64 1 0
        ["a\t1\t5".toList, "b\t1\t5".toList, "c\t1\t5".toList]
        (RunState.init Ldb.empty)).2.inFlight.map Job.launch = [2, 3] := by
  decide

/-- C8, as stated, fails: a line whose third field is no integer is not
reported and not skipped; its modification time is read as 0, a job is
launched for it and the store is written. -/
theorem non_integer_time_is_uploaded :
    (QiniuUpload twoFiles plainConfig linux64 1 ["a.jpg\t10\tabc".toList] Ldb.empty).1
      = .next ∧
    eventsOf twoFiles plainConfig linux64 1 ["a.jpg\t10\tabc".toList] Ldb.empty
      = [.uploading "/src/a.jpg => a.jpg".toList 1,
         .fioPutFile "bkt".toList "a.jpg".toList "/src/a.jpg".toList,
         .ldbPut "/src/a.jpg => a.jpg".toList "0".toList] ∧
    jobsDispatched twoFiles plainConfig linux64 1 ["a.jpg\t10\tabc".toList] Ldb.empty = 1 ∧
    storeAfter twoFiles plainConfig linux64 1 ["a.jpg\t10\tabc".toList] Ldb.empty
        (ldbKey plainConfig linux64 "a.jpg".toList) = some "0".toList := by
  decide

/-- A line of two fields: `items[2]` is out of range and the run panics; the
line after it is not read. -/
theorem two_field_line_panics :
    (QiniuUpload twoFiles plainConfig linux64 1
        ["a.jpg\t10".toList, "big.bin\t104857601\t100".toList] Ldb.empty).1 = .panicked ∧
    eventsOf twoFiles plainConfig linux64 1
        ["a.jpg\t10".toList, "big.bin\t104857601\t100".toList] Ldb.empty = [] := by
  decide

/-- C9 fails on the code at an entry whose local file cannot be statted: the
loop returns from `QiniuUpload` at that line, and the entry after it, `a.jpg`,
is never looked at: no job, no record. -/
theorem stat_failure_ends_the_run :
    (QiniuUpload twoFiles plainConfig linux64 1
        ["gone.jpg\t10\t100".toList, "a.jpg\t10\t100".toList] Ldb.empty).1 = .returned ∧
    eventsOf twoFiles plainConfig linux64 1
        ["gone.jpg\t10\t100".toList, "a.jpg\t10\t100".toList] Ldb.empty
      = [.errStat "/src/gone.jpg".toList] ∧
    jobsDispatched twoFiles plainConfig linux64 1
        ["gone.jpg\t10\t100".toList, "a.jpg\t10\t100".toList] Ldb.empty = 0 ∧
    storeAfter twoFiles plainConfig linux64 1
        ["gone.jpg\t10\t100".toList, "a.jpg\t10\t100".toList] Ldb.empty
        (ldbKey plainConfig linux64 "a.jpg".toList) = none := by
  decide

/-- The scenario of the specification: `a.jpg` and `b/c.jpg`, 10 KB each, of
modification time 100, with key prefix `2024/`. The first run uploads both
under `2024/a.jpg` and `2024/b/c.jpg`; a second run over the same manifest
dispatches nothing; after `a.jpg` moves to time 200 the next run dispatches
`a.jpg` alone. -/
theorem small_files_scenario :
    eventsOf smallFiles prefixConfig linux64 2
        ["a.jpg\t10240\t100".toList, "b/c.jpg\t10240\t100".toList] Ldb.empty
      = [.uploading "/src/a.jpg => 2024/a.jpg".toList 1,
         .uploading "/src/b/c.jpg => 2024/b/c.jpg".toList 2,
         .fioPutFile "bkt".toList "2024/a.jpg".toList "/src/a.jpg".toList,
         .ldbPut "/src/a.jpg => 2024/a.jpg".toList "100".toList,
         .fioPutFile "bkt".toList "2024/b/c.jpg".toList "/src/b/c.jpg".toList,
         .ldbPut "/src/b/c.jpg => 2024/b/c.jpg".toList "100".toList] ∧
    jobsDispatched smallFiles prefixConfig linux64 2
        ["a.jpg\t10240\t100".toList, "b/c.jpg\t10240\t100".toList]
        (storeAfter smallFiles prefixConfig linux64 2
          ["a.jpg\t10240\t100".toList, "b/c.jpg\t10240\t100".toList] Ldb.empty) = 0 ∧
    eventsOf smallFiles prefixConfig linux64 2
        ["a.jpg\t10240\t200".toList, "b/c.jpg\t10240\t100".toList]
        (storeAfter smallFiles prefixConfig linux64 2
          ["a.jpg\t10240\t100".toList, "b/c.jpg\t10240\t100".toList] Ldb.empty)
      = [.uploading "/src/a.jpg => 2024/a.jpg".toList 1,
         .fioPutFile "bkt".toList "2024/a.jpg".toList "/src/a.jpg".toList,
         .ldbPut "/src/a.jpg => 2024/a.jpg".toList "200".toList] := by
  decide

theorem smallFiles_sizes :
    ∀ path size, smallFiles.stat path = some size → size ≤ PUT_THRESHOLD := by
  intro path size h
  have hT := PUT_THRESHOLD_eq
  unfold smallFiles World.quiet at h
  simp only [List.find?] at h
  split at h
  · simp at h
    omega
  · split at h
    · simp at h
      omega
    · simp at h

/-- The theorem `idempotent_without_large_files` at the scenario of the
specification. -/
theorem idempotent_without_large_files_witness :
    jobsDispatched (World.offline []) prefixConfig linux64 7
        ["a.jpg\t10240\t100".toList, "b/c.jpg\t10240\t100".toList]
        (storeAfter smallFiles prefixConfig linux64 2
          ["a.jpg\t10240\t100".toList, "b/c.jpg\t10240\t100".toList] Ldb.empty) = 0 :=
  (idempotent_without_large_files smallFiles (World.offline []) prefixConfig linux64 2 7
    ["a.jpg\t10240\t100".toList, "b/c.jpg\t10240\t100".toList] Ldb.empty
    (fun _ _ _ => rfl) (fun _ _ => rfl) smallFiles_sizes
    (by
      intro t1 t2 h1 h2 _ _ _
      simp only [List.mem_cons, List.mem_singleton, List.not_mem_nil, or_false] at h1 h2
      rcases h1 with rfl | rfl <;> rcases h2 with rfl | rfl <;> rfl)
    (by decide)).1

/-- The theorem `transfer_and_commit_errors_do_not_stop` at a run in which
every transfer fails: both entries are reached, nothing is committed. -/
theorem transfer_and_commit_errors_do_not_stop_witness :
    (QiniuUpload (World.offline [("/src/a.jpg".toList, 10)]) plainConfig linux64 1
        ["a.jpg\t10\t100".toList, "a.jpg\t10\t100".toList] Ldb.empty).1 = .next ∧
    eventsOf (World.offline [("/src/a.jpg".toList, 10)]) plainConfig linux64 1
        ["a.jpg\t10\t100".toList, "a.jpg\t10\t100".toList] Ldb.empty
      = [.uploading "/src/a.jpg => a.jpg".toList 1,
         .uploading "/src/a.jpg => a.jpg".toList 2,
         .fioPutFile "bkt".toList "a.jpg".toList "/src/a.jpg".toList,
         .errPutFile "/src/a.jpg".toList "a.jpg".toList,
         .fioPutFile "bkt".toList "a.jpg".toList "/src/a.jpg".toList,
         .errPutFile "/src/a.jpg".toList "a.jpg".toList] :=
  ⟨transfer_and_commit_errors_do_not_stop (World.offline [("/src/a.jpg".toList, 10)])
      plainConfig linux64 1 (by decide) _ Ldb.empty
      (by
        intro text ht
        simp only [List.mem_cons, List.mem_singleton, List.not_mem_nil, or_false, or_self]
          at ht
        subst ht
        exact Or.inr (by decide)),
    by decide⟩

/-- The theorem `simple_record_decides_by_time` at `a.jpg`, recorded at time
100: listed with time 100 it is skipped, listed with time 200 it is
dispatched. -/
theorem simple_record_decides_by_time_witness :
    scanLine twoFiles plainConfig linux64 1 0 "a.jpg\t10\t100".toList
        (oneRecord (Itoa 100))
      = (.next, { oneRecord (Itoa 100) with currentFileCount := 1 }) ∧
    (scanLine twoFiles plainConfig linux64 1 0 "a.jpg\t10\t200".toList
        (oneRecord (Itoa 100))).2.upCounter = 1 :=
  ⟨(simple_record_decides_by_time twoFiles plainConfig linux64 1 (by decide) 0
      "a.jpg\t10\t100".toList (oneRecord (Itoa 100)) 10 100 (by decide) (by decide)
      (by decide) (by decide) (by decide)).1 (by decide),
   ((simple_record_decides_by_time twoFiles plainConfig linux64 1 (by decide) 0
      "a.jpg\t10\t200".toList (oneRecord (Itoa 100)) 10 100 (by decide) (by decide)
      (by decide) (by decide) (by decide)).2 (by decide)).2.1⟩

/-- The theorem `Y_record_reads_as_zero` at `big.bin`, recorded as `Y`: listed
with time 0 it is skipped, listed with time 100 it is dispatched. -/
theorem Y_record_reads_as_zero_witness :
    scanLine twoFiles plainConfig linux64 1 0 "big.bin\t104857601\t0".toList
        (RunState.init (Ldb.empty.put (ldbKey plainConfig linux64 "big.bin".toList)
          "Y".toList))
      = (.next, { RunState.init (Ldb.empty.put (ldbKey plainConfig linux64 "big.bin".toList)
          "Y".toList) with currentFileCount := 1 }) ∧
    (scanLine twoFiles plainConfig linux64 1 0 "big.bin\t104857601\t100".toList
        (RunState.init (Ldb.empty.put (ldbKey plainConfig linux64 "big.bin".toList)
          "Y".toList))).2.upCounter = 1 :=
  ⟨(Y_record_reads_as_zero twoFiles plainConfig linux64 1 (by decide) 0
      "big.bin\t104857601\t0".toList _ 104857601 (by decide) (by decide)
      (by decide)).1 (by decide),
   ((Y_record_reads_as_zero twoFiles plainConfig linux64 1 (by decide) 0
      "big.bin\t104857601\t100".toList _ 104857601 (by decide) (by decide)
      (by decide)).2 (by decide)).2⟩

/-- The theorem `inFlight_le_threadCount_succ` with one upload thread and
three jobs: two goroutines in flight, the bound it gives. -/
theorem inFlight_le_threadCount_succ_witness :
    ((scanLoop threeFiles plainConfig linux64 1 0
        ["a\t1\t5".toList, "b\t1\t5".toList, "c\t1\t5".toList]
        (RunState.init Ldb.empty)).2.inFlight.length : Int) ≤ 1 + 1 :=
  inFlight_le_threadCount_succ threeFiles plainConfig linux64 1 (by decide) _ Ldb.empty

/-- The theorem `failed_transfers_leave_the_store` at a run over two entries,
one with a record: the record is as it was and no record is added. -/
theorem failed_transfers_leave_the_store_witness :
    storeAfter (World.offline [("/src/a.jpg".toList, 10), ("/src/big.bin".toList, 104857601)])
        plainConfig linux64 1
        ["a.jpg\t10\t200".toList, "big.bin\t104857601\t100".toList] (oneRecord (Itoa 100)).ldb
      = (oneRecord (Itoa 100)).ldb :=
  failed_transfers_leave_the_store _ plainConfig linux64 1 _ _ (fun _ _ _ => rfl)
    (fun _ _ _ => rfl)

end Qshell
